import Mathlib

/-!
Verification development for the `robomimic` snippet consisting of
`robomimic/scripts/conversion/convert_r2d2.py` (the R2D2 trajectory
dataset conversion pass) and `examples/add_new_modality.py` (the custom
observation modality example).

The HDF5 trajectory store is shallowly embedded as a tree of groups and
datasets; numpy arrays become lists of rows over exact rationals; the
external collaborators (the recorded-camera reader, the trajectory
reader and the pytorch3d rotation conversions) are modelled as explicit
function parameters bundled in an `Ext` record, following the
collaborator contracts stated for them (frames keyed by camera id,
per-row Euler-to-matrix and matrix-to-6d conversion).  Association
lists model h5py groups; they are kept in h5py's (name-sorted)
iteration order, so iterating a group is iterating the list.
-/

namespace R2D2

/-- Python-level error classes that the conversion script can raise.
The payloads (messages) are not modelled, only the class of the error. -/
inductive PyErr where
  | keyError
  | valueError
  | indexError
  | typeError
  | sameFileError
  | fileNotFoundError
deriving DecidableEq, Repr

/-- A numpy value: either a scalar or a nested array (a list of
sub-values).  Numeric contents are modelled exactly, as rationals. -/
inductive NDArr where
  | scalar (q : ℚ)
  | arr (xs : List NDArr)

/-- An HDF5 object: a dataset or a group.  A dataset is stored as its
list of rows together with the shape of one row (`tailShape`), so that
the full numpy shape is `rows.length :: tailShape`; rank-0 (scalar)
datasets do not occur in the trajectory stores handled here.  A group
is an association list of named children in h5py iteration order. -/
inductive H5 where
  | dset (tailShape : List Nat) (rows : List NDArr)
  | grp (items : List (String × H5))

/-- An image frame as produced by the camera reader: height, width and
channel dimension, pixel values as rationals. -/
abbrev Frame := List (List (List ℚ))

/-- A 3x3 rotation matrix (the output type of the external
`euler_angles_to_matrix`). -/
def Mat3 : Type := Fin 3 → Fin 3 → ℚ

/-- The command-line arguments consumed by `convert_dataset`. -/
structure Args where
  imsize : Nat
  keep_idle_timesteps : Bool

/-- The external collaborators of `convert_dataset`, modelled by their
contracts: `camera_type_to_string` is the `camera_type_to_string_dict`
lookup of `r2d2.camera_utils.info` (`none` models a `KeyError`);
`read_timestep` is `TrajectoryReader.read_timestep` projected to the
per-timestep camera-timestamp record it is used for (`none` models a
missing record, i.e. a `KeyError` on the nested dictionary access);
`read_cameras` is `RecordedMultiCameraWrapper.read_cameras`, taking the
timestep index, the camera-id-to-type map and the timestamp map, and
returning `none` on a failed read or the decoded frames keyed by
camera identifier; the two pytorch3d conversions act on one row, the
batch dimension being handled by mapping (`euler_angles_to_matrix`
additionally receives the convention string, and
`matrix_to_rotation_6d` always produces 6 components). -/
structure Ext where
  camera_type_to_string : ℚ → Option String
  read_timestep : Nat → Option (List (String × ℚ))
  read_cameras : Nat → List (String × String) → List (String × ℚ) → Option (String → Frame)
  euler_angles_to_matrix : String → List ℚ → Mat3
  matrix_to_rotation_6d : Mat3 → Fin 6 → ℚ

/-! ### String ordering

Python compares strings lexicographically by code point; this is the
order `sorted` uses on the camera identifiers.  It is defined here as
an executable comparison on the character lists. -/

/-- Lexicographic comparison of character lists by code point. -/
def lexLe : List Char → List Char → Bool
  | [], _ => true
  | _ :: _, [] => false
  | a :: as, b :: bs =>
    if a.toNat < b.toNat then true
    else if b.toNat < a.toNat then false
    else lexLe as bs

/-- Python's `<=` on strings: lexicographic by code point. -/
def strLe (a b : String) : Bool := lexLe a.data b.data

/-- Python's `sorted` on a list of strings.  (Any sorting algorithm
yields the same result for a linear order, so insertion sort models
Python's Timsort faithfully.) -/
def sortStr (l : List String) : List String :=
  List.insertionSort (fun a b => strLe a b = true) l

/-! ### Association-list primitives for h5py groups -/

/-- `k in g` / `g[k]` on a group: look up a child by name. -/
def getKey? (items : List (String × H5)) (k : String) : Option H5 :=
  match items.find? (fun p => p.1 == k) with
  | some p => some p.2
  | none => none

/-- `del g[k]`: drop the child named `k`. -/
def delKey (items : List (String × H5)) (k : String) : List (String × H5) :=
  items.filter (fun p => !(p.1 == k))

/-- The `if k in g: del g[k]` followed by `g.create_dataset(k, ...)`
pattern: replace any existing child named `k` by `v`. -/
def putKey (items : List (String × H5)) (k : String) (v : H5) : List (String × H5) :=
  delKey items k ++ [(k, v)]

/-- `k in g` as a Boolean. -/
def hasKey (items : List (String × H5)) (k : String) : Bool :=
  (getKey? items k).isSome

/-- Replace the value of the child named `k` in place (used when a
nested group is mutated through its handle). -/
def replaceKey (items : List (String × H5)) (k : String) (v : H5) : List (String × H5) :=
  items.map (fun p => if p.1 == k then (k, v) else p)

/-- `f[p1/p2/...]`: path lookup through nested groups. -/
def getSub : List String → H5 → Option H5
  | [], h => some h
  | k :: p, .grp items =>
    match getKey? items k with
    | some c => getSub p c
    | none => none
  | _ :: _, .dset _ _ => none

/-- Apply a fallible transformation to the object at a path, writing
the result back in place.  A missing component is a `KeyError`; a
dataset in the middle of the path is modelled as a `TypeError`. -/
def modSub (F : H5 → Except PyErr H5) : List String → H5 → Except PyErr H5
  | [], h => F h
  | k :: p, .grp items =>
    match getKey? items k with
    | some c => (modSub F p c).map (fun c' => .grp (replaceKey items k c'))
    | none => .error .keyError
  | _ :: _, .dset _ _ => .error .typeError

/-- The pure effect of a successful `modSub`: replace the object at an
existing path. -/
def setSub (v : H5) : List String → H5 → H5
  | [], _ => v
  | k :: p, .grp items =>
    match getKey? items k with
    | some c => .grp (replaceKey items k (setSub v p c))
    | none => .grp items
  | _ :: _, h => h

/-- Read the rows of the dataset at a path (`f[path][:]`, and
`f[path].shape[0]` is the length of the result).  A group at the path
cannot be sliced or measured this way; modelled as a `TypeError`. -/
def read_shape0 (p : List String) (f : H5) : Except PyErr (List NDArr) :=
  match getSub p f with
  | some (.dset _ rows) => .ok rows
  | some (.grp _) => .error .typeError
  | none => .error .keyError

/-! ### Custom image modality (`examples/add_new_modality.py`) -/

/-- `CustomImageModality._default_obs_processor`: map a raw pixel value
in `[0, 255]` to `[-1, 1]` (lines 25-28). -/
def custom_image_obs_processor (obs : ℚ) : ℚ := (obs / 255 - 0.5) * 2

/-- `CustomImageModality._default_obs_unprocessor`: the inverse map
(lines 30-33). -/
def custom_image_obs_unprocessor (obs : ℚ) : ℚ := (obs / 2 + 0.5) * 255

/-! ### Camera identity resolution (convert_r2d2.py lines 57-81) -/

/-- The classification loop over `f["observation"]["camera_type"]`
(lines 57-68): look each recorded type code up in
`camera_type_to_string_dict` and split the camera ids into hand and
varied cameras, building `CAM_ID_TO_TYPE` along the way; an
unrecognized type string is a `ValueError`, a failed dictionary lookup
a `KeyError`. -/
def classifyCams (dict : ℚ → Option String) :
    List (String × ℚ) → Except PyErr (List (String × String) × List String × List String)
  | [] => .ok ([], [], [])
  | (k, v) :: rest =>
    match dict v with
    | none => .error .keyError
    | some t =>
      if t == "hand_camera" then
        (classifyCams dict rest).map (fun r => ((k, t) :: r.1, k :: r.2.1, r.2.2))
      else if t == "varied_camera" then
        (classifyCams dict rest).map (fun r => ((k, t) :: r.1, r.2.1, k :: r.2.2))
      else .error .valueError

/-- Camera identity resolution (lines 57-81): classify, sort each
class of identifiers, then build `CAM_NAME_TO_KEY_MAPPING`: the slot
`hand_camera_image` is bound to the first sorted hand-camera id
(an out-of-bounds `IndexError` when there is none), and slot
`varied_camera_<i+1>_image` to the i-th sorted varied-camera id, each
suffixed `_left`.  Returns `CAM_ID_TO_TYPE` and the slot map. -/
def varied_slots (ids : List String) : List (String × String) :=
  ids.enum.map (fun p => ("varied_camera_" ++ toString (p.1 + 1) ++ "_image", p.2 ++ "_left"))

def resolve_cams (dict : ℚ → Option String) (camItems : List (String × ℚ)) :
    Except PyErr (List (String × String) × List (String × String)) := do
  let r ← classifyCams dict camItems
  let handIds := sortStr r.2.1
  let variedIds := sortStr r.2.2
  match handIds with
  | [] => .error .indexError
  | h0 :: _ =>
    .ok (r.1, ("hand_camera_image", h0 ++ "_left") :: varied_slots variedIds)

/-- Extraction of the raw camera-type records that feed the resolver:
iterate the children of `f["observation"]["camera_type"]` and take the
first element of each (line 60-61).  An empty dataset makes `[0]` an
`IndexError`; a non-scalar first element or a group child cannot be a
dictionary key, modelled as a `TypeError`. -/
def read_cam_types (f : H5) : Except PyErr (List (String × ℚ)) :=
  match getSub ["observation", "camera_type"] f with
  | some (.grp items) =>
    items.mapM (fun p =>
      match p.2 with
      | .dset _ [] => .error .indexError
      | .dset _ (NDArr.scalar q :: _) => .ok (p.1, q)
      | .dset _ (NDArr.arr _ :: _) => .error .typeError
      | .grp _ => .error .typeError)
  | some (.dset _ _) => .error .typeError
  | none => .error .keyError

/-! ### Image accumulation (convert_r2d2.py lines 83-111) -/

/-- `np.zeros((imsize, imsize, 3))`. -/
def zeroFrame (n : Nat) : Frame :=
  List.replicate n (List.replicate n (List.replicate 3 (0 : ℚ)))

/-- `im[:, :, ::-1]`: reverse the channel order of every pixel
(line 103). -/
def bgr_to_rgb (fr : Frame) : Frame := fr.map (fun row => row.map List.reverse)

/-- The frame accumulated for one slot at one timestep (lines 95-105):
a zero frame of the target resolution when the whole camera read
failed, otherwise the frame for the slot's camera key; in both cases
the channel order is then reversed.  The camera reader is invoked with
the (reassigned, empty) timestamp map. -/
def frame_for (ext : Ext) (args : Args) (ctd : List (String × String)) (i : Nat)
    (imKey : String) : Frame :=
  bgr_to_rgb (match ext.read_cameras i ctd [] with
    | none => zeroFrame args.imsize
    | some imgs => imgs imKey)

/-- The per-slot accumulated frame list `cam_data[cam_name]` after the
timestep loop (lines 86-105). -/
def cam_frames (ext : Ext) (args : Args) (ctd : List (String × String)) (dlen : Nat)
    (imKey : String) : List Frame :=
  (List.range dlen).map (fun i => frame_for ext args ctd i imKey)

/-- The timestep loop also performs `traj_reader.read_timestep` and
reads the nested timestamp record from it before discarding it
(lines 88-91); a missing record is a `KeyError`.  Only the
success/failure of these reads can influence the conversion. -/
def check_ts_reads (ext : Ext) (dlen : Nat) : Except PyErr Unit :=
  if (List.range dlen).all (fun i => (ext.read_timestep i).isSome) then .ok ()
  else .error .keyError

/-- The C-style cast performed by `astype(np.uint8)` on the
(non-negative integer valued) pixel data: truncate and wrap mod 256. -/
def uint8cast (q : ℚ) : ℚ := (((Rat.floor q) % 256 : ℤ) : ℚ)

/-- Shape conformity of a frame, in the sense of `np.array` stacking:
every row has the same width and every pixel the same channel count. -/
def frameHasShape (fr : Frame) (h w c : Nat) : Bool :=
  fr.length == h && fr.all (fun r => r.length == w && r.all (fun px => px.length == c))

/-- Embed a frame as an `NDArr` row. -/
def frameToND (fr : Frame) : NDArr :=
  .arr (fr.map (fun r => .arr (r.map (fun px => .arr (px.map NDArr.scalar)))))

/-- Apply a function to every pixel of a frame. -/
def mapFrame (g : ℚ → ℚ) (fr : Frame) : Frame :=
  fr.map (fun r => r.map (fun px => px.map g))

/-- `np.array(cam_data[cam_name]).astype(np.uint8)` (line 108): stack
the accumulated frames into one `[T, H, W, 3]` uint8 array.  An empty
list gives the rank-1 empty array; frames of inconsistent shape cannot
be stacked into a numeric array (modelled as a `ValueError`). -/
def stackFrames : List Frame → Except PyErr H5
  | [] => .ok (.dset [] [])
  | f0 :: rest =>
    let h := f0.length
    let w := (f0.headD []).length
    let c := ((f0.headD []).headD []).length
    if (f0 :: rest).all (fun fr => frameHasShape fr h w c) then
      .ok (.dset [h, w, c] ((f0 :: rest).map (fun fr => frameToND (mapFrame uint8cast fr))))
    else .error .valueError

/-- Lines 39-41: create `observation/camera/image` when `camera` is
not yet a child of `observation`. -/
def ensure_camera_group (f : H5) : Except PyErr H5 :=
  modSub (fun h => match h with
    | .grp obs =>
      .ok (.grp (if hasKey obs "camera" then obs
                 else obs ++ [("camera", .grp [("image", .grp [])])]))
    | .dset _ _ => .error .typeError) ["observation"] f

/-- Lines 107-111: write each accumulated image stack under
`observation/camera/image`, replacing a previous dataset of the same
name. -/
def write_images (ext : Ext) (args : Args) (ctd : List (String × String))
    (mapping : List (String × String)) (dlen : Nat) (f : H5) : Except PyErr H5 :=
  modSub (fun h => match h with
    | .grp imgItems =>
      (mapping.foldlM (fun acc (nk : String × String) => do
          let d ← stackFrames (cam_frames ext args ctd dlen nk.2)
          Except.ok (putKey acc nk.1 d)) imgItems).map .grp
    | .dset _ _ => .error .typeError) ["observation", "camera", "image"] f

/-! ### Action re-encoding (convert_r2d2.py lines 113-145) -/

/-- `in_action[:, :3]` on one row. -/
def row_take3 : NDArr → NDArr
  | .arr xs => .arr (xs.take 3)
  | .scalar q => .scalar q

/-- `in_action[:, 3:6]` on one row. -/
def row_slice36 : NDArr → NDArr
  | .arr xs => .arr ((xs.drop 3).take 3)
  | .scalar q => .scalar q

/-- Project a stored value to a scalar (the rotation rows handed to
the pytorch3d conversion are flat numeric vectors per the collaborator
contract; deeper nesting is outside it). -/
def nd_q : NDArr → ℚ
  | .scalar q => q
  | .arr _ => 0

/-- View a row as the flat numeric vector handed to
`euler_angles_to_matrix`. -/
def row_vec : NDArr → List ℚ
  | .arr xs => xs.map nd_q
  | .scalar q => [q]

/-- One output row of `matrix_to_rotation_6d` (6 components). -/
def rot6_row (v : Fin 6 → ℚ) : NDArr :=
  .arr ((List.finRange 6).map (fun i => .scalar (v i)))

/-- The 6d-rotation row derived from one Euler row through the two
external conversions under the fixed convention string. -/
def rot6_of (ext : Ext) (r : NDArr) : NDArr :=
  rot6_row (ext.matrix_to_rotation_6d (ext.euler_angles_to_matrix "XYZ" (row_vec r)))

/-- Lines 115-138 for one action family `fam` with name prefix `pfx`:
slice position and Euler rotation out of the raw action array, derive
the 6d rotation through the external conversions with the fixed
convention string `"XYZ"`, and write the three derived datasets,
replacing existing entries.  A missing raw family is a `KeyError`; a
rank-1 raw array cannot be sliced with `[:, :3]` (an `IndexError`). -/
def family_write (ext : Ext) (fam pfx : String) (items : List (String × H5)) :
    Except PyErr (List (String × H5)) :=
  match getKey? items fam with
  | none => .error .keyError
  | some (.grp _) => .error .typeError
  | some (.dset [] _) => .error .indexError
  | some (.dset (c :: rest) rows) =>
    let posRows := rows.map row_take3
    let rotRows := rows.map row_slice36
    let r6Rows := rotRows.map (rot6_of ext)
    .ok (putKey (putKey (putKey items (pfx ++ "pos") (.dset (min 3 c :: rest) posRows))
          (pfx ++ "rot_euler") (.dset ((min 6 c - min 3 c) :: rest) rotRows))
          (pfx ++ "rot_6d") (.dset [6] r6Rows))

/-- Lines 113-138: both action families, in source order. -/
def write_actions (ext : Ext) (f : H5) : Except PyErr H5 :=
  modSub (fun h => match h with
    | .grp items => do
        let i1 ← family_write ext "cartesian_position" "abs_" items
        let i2 ← family_write ext "cartesian_velocity" "rel_" i1
        Except.ok (.grp i2)
    | .dset _ _ => .error .typeError) ["action"] f

/-- One step of the rank-normalization loop (lines 141-145): a rank-1
dataset (empty `tailShape`) named `k` is reshaped to `(-1, 1)`,
i.e. every scalar row is wrapped in a singleton; other entries are
untouched. -/
def normalize_entry (items : List (String × H5)) (k : String) : List (String × H5) :=
  match getKey? items k with
  | some (.dset [] rows) => putKey items k (.dset [1] (rows.map (fun r => .arr [r])))
  | _ => items

/-- The value-level effect of rank normalization on one entry: a
rank-1 dataset of shape `[T]` becomes one of shape `[T, 1]`, all other
objects are untouched. -/
def normVal : H5 → H5
  | .dset [] rows => .dset [1] (rows.map (fun r => .arr [r]))
  | h => h

/-- Lines 140-145: normalize every entry of the action group, iterating
over the names present when the loop starts. -/
def normalize_ranks (items : List (String × H5)) : List (String × H5) :=
  (items.map Prod.fst).foldl normalize_entry items

/-- The rank-normalization pass applied to the `action` group. -/
def normalize_actions (f : H5) : Except PyErr H5 :=
  modSub (fun h => match h with
    | .grp items => .ok (.grp (normalize_ranks items))
    | .dset _ _ => .error .typeError) ["action"] f

/-! ### Timestep pruning (convert_r2d2.py lines 147-174) -/

/-- `np.where(movement_enabled == False)[0]` (line 149): indices of the
rows whose stored flag value equals `False` (i.e. `0`); the flag array
is 1-dimensional, so each row is a scalar. -/
def false_idxs (rows : List NDArr) : List Nat :=
  (rows.enum.filter (fun p => match p.2 with
    | .scalar q => q == 0
    | .arr _ => false)).map Prod.fst

/-- The rows that survive deleting the index set `I`: exactly the rows
whose original index is not listed, in their original relative order. -/
def pruned_rows (rows : List NDArr) (I : List Nat) : List NDArr :=
  (rows.enum.filter (fun q => !(I.contains q.1))).map Prod.snd

/-- What the pruner does to one leaf array of leading dimension
`rows.length`: delete the listed rows when the leading dimension is the
episode length, otherwise leave the array untouched. -/
def pruneIf (T : Nat) (I : List Nat) (rows : List NDArr) : List NDArr :=
  if rows.length = T then pruned_rows rows I else rows

/-- `np.delete(a, I, axis=0)`: remove the rows whose index is listed in
`I`, keeping the remaining rows in order; an out-of-range index is an
`IndexError`. -/
def npDelete (rows : List NDArr) (I : List Nat) : Except PyErr (List NDArr) :=
  if I.all (fun i => i < rows.length) then .ok (pruned_rows rows I)
  else .error .indexError

/-- `remove_timesteps_for_group` (lines 159-171) on the children of a
group: a dataset child whose leading dimension is the episode length
is rewritten through `npDelete`, any other dataset child is skipped
with a printed notice naming it (collected in the returned list);
group children are recursed into. -/
def prune_items (T : Nat) (I : List Nat) :
    List (String × H5) → Except PyErr (List (String × H5) × List String)
  | [] => .ok ([], [])
  | (k, h) :: rest => do
    let r ← entry k h
    let rs ← prune_items T I rest
    Except.ok ((k, r.1) :: rs.1, r.2 ++ rs.2)
where entry (k : String) : H5 → Except PyErr (H5 × List String)
  | .dset ts rows =>
    if rows.length == T then
      (npDelete rows I).map (fun rows' => (.dset ts rows', []))
    else .ok (.dset ts rows, [k])
  | .grp gitems => (prune_items T I gitems).map (fun rg => (.grp rg.1, rg.2))

/-- What the top-level loop of `remove_timesteps` (lines 173-174) does
to one root child: a group is walked by
`remove_timesteps_for_group`; iterating a non-empty root dataset child
that way fails (its rows are not valid child keys, modelled as a
`TypeError`), while an empty one is silently skipped. -/
def prune_root_child (T : Nat) (I : List Nat) : H5 → Except PyErr (H5 × List String)
  | .dset ts rows =>
    if rows.isEmpty then .ok (.dset ts rows, []) else .error .typeError
  | .grp items => (prune_items T I items).map (fun r => (.grp r.1, r.2))

/-- The top-level loop of `remove_timesteps` over the root children. -/
def prune_root (T : Nat) (I : List Nat) :
    List (String × H5) → Except PyErr (List (String × H5) × List String)
  | [] => .ok ([], [])
  | (k, h) :: rest => do
    let r ← prune_root_child T I h
    let rs ← prune_root T I rest
    Except.ok ((k, r.1) :: rs.1, r.2 ++ rs.2)

/-- `remove_timesteps` (lines 156-174): read the episode length from
`action/cartesian_position`, then prune every root child.  Returns the
rewritten store and the printed skip notices. -/
def remove_timesteps (f : H5) (I : List Nat) : Except PyErr (H5 × List String) := do
  let trows ← read_shape0 ["action", "cartesian_position"] f
  match f with
  | .grp items => (prune_root trows.length I items).map (fun r => (.grp r.1, r.2))
  | .dset _ _ => .error .typeError

/-! ### The full conversion pass (convert_r2d2.py lines 18-154) -/

/-- `convert_dataset` applied to the working copy of the store: read
the episode length, ensure the image group, resolve the camera slots,
accumulate and write the images, re-derive the actions, normalize
action ranks, and finally prune the idle timesteps unless
`keep_idle_timesteps` is set.  Error propagation is in source order. -/
def convert_dataset (ext : Ext) (args : Args) (f0 : H5) : Except PyErr H5 := do
  let demoRows ← read_shape0 ["action", "cartesian_position"] f0
  let dlen := demoRows.length
  let f1 ← ensure_camera_group f0
  let _ ← (match getSub ["observation", "camera", "image"] f1 with
           | some _ => Except.ok ()
           | none => Except.error PyErr.keyError)
  let camItems ← read_cam_types f1
  let res ← resolve_cams ext.camera_type_to_string camItems
  let _ ← check_ts_reads ext dlen
  let f2 ← write_images ext args res.1 res.2 dlen f1
  let f3 ← write_actions ext f2
  let f4 ← normalize_actions f3
  let mrows ← read_shape0 ["observation", "controller_info", "movement_enabled"] f4
  let toRemove := false_idxs mrows
  if args.keep_idle_timesteps then .ok f4
  else (remove_timesteps f4 toRemove).map Prod.fst

/-! ### File-system level (convert_r2d2.py lines 18-35) -/

/-- Split a character list on `/`. -/
def splitSlash : List Char → List (List Char)
  | [] => [[]]
  | a :: rest =>
    let r := splitSlash rest
    if a == '/' then [] :: r
    else match r with
      | [] => [[a]]
      | g :: gs => (a :: g) :: gs

/-- Join path components with `/`. -/
def joinSlash : List (List Char) → List Char
  | [] => []
  | [g] => g
  | g :: gs => g ++ '/' :: joinSlash gs

/-- `os.path.dirname`. -/
def pyDirname (p : String) : String := ⟨joinSlash ((splitSlash p.data).dropLast)⟩

/-- `os.path.join` for the one relative component used here. -/
def pyJoin (d b : String) : String :=
  if d.data.isEmpty then b
  else if d.data.getLast? == some '/' then d ++ b
  else d ++ "/" ++ b

/-- Line 26: the output path, in the directory of the source file,
with the target resolution encoded in the file name. -/
def output_path (path : String) (imsize : Nat) : String :=
  pyJoin (pyDirname path) ("trajectory_im" ++ toString imsize ++ ".h5")

/-- A file system: store contents keyed by path. -/
abbrev FS := List (String × H5)

/-- Read a file. -/
def fsRead (fs : FS) (p : String) : Option H5 :=
  match fs.find? (fun e => e.1 == p) with
  | some e => some e.2
  | none => none

/-- Write a file (replace in place, or create). -/
def fsWrite (fs : FS) (p : String) (v : H5) : FS :=
  if (fs.find? (fun e => e.1 == p)).isSome then
    fs.map (fun e => if e.1 == p then (p, v) else e)
  else fs ++ [(p, v)]

/-- `convert_dataset` at the file-system level (lines 18-35 and 154):
duplicate the source file to the resolution-tagged output path
(`shutil.copyfile`, which refuses to copy a file onto itself), then
apply the conversion pass to the copy only.  A missing source is a
`FileNotFoundError`. -/
def convert_file (ext : Ext) (args : Args) (fs : FS) (path : String) : Except PyErr FS := do
  let src ← (match fsRead fs path with
             | some v => Except.ok v
             | none => Except.error PyErr.fileNotFoundError)
  let out := output_path path args.imsize
  if out == path then .error .sameFileError
  else do
    let fs1 := fsWrite fs out src
    let res ← convert_dataset ext args src
    Except.ok (fsWrite fs1 out res)

/-! ### Concrete instances used below -/

/-- A concrete `camera_type_to_string_dict`: code 0 is the hand camera,
code 1 a varied camera. -/
def dict0 : ℚ → Option String := fun q =>
  if q = 0 then some "hand_camera" else if q = 1 then some "varied_camera" else none

/-- Concrete camera-type records: one hand camera `a`, varied cameras
`b` and `c`. -/
def camItems0 : List (String × ℚ) := [("b", 1), ("a", 0), ("c", 1)]

/-- Concrete root items for exercising the pruner: a per-timestep
action array of two rows and a per-episode metadata array of one row. -/
def c2Items : List (String × H5) :=
  [("action", .grp [("cartesian_position", .dset [6] [.scalar 1, .scalar 2]),
                    ("meta", .dset [] [.scalar 7])])]

/-- A flat numeric action row with six components. -/
def row6 (v : ℚ) : NDArr :=
  .arr [.scalar v, .scalar (v + 1), .scalar (v + 2), .scalar (v + 3), .scalar (v + 4),
    .scalar (v + 5)]

/-- Concrete external collaborators: camera type code 0 is the hand
camera and 1 a varied camera, every timestep record is present, every
camera read succeeds with a constant 1x1 frame, and the rotation
conversions are constant. -/
def ext0 : Ext :=
  ⟨fun q => if q = 0 then some "hand_camera" else if q = 1 then some "varied_camera" else none,
   fun _ => some [],
   fun _ _ _ => some (fun _ => [[[(1 : ℚ), 2, 3]]]),
   fun _ _ => fun _ _ => 0,
   fun _ => fun _ => 0⟩

/-- A variant of the concrete collaborators that records different
per-timestep timestamp values and refuses camera reads when handed a
non-empty timestamp map: it agrees with `ext0` exactly on the slices
the conversion consults. -/
def ext1 : Ext :=
  ⟨fun q => if q = 0 then some "hand_camera" else if q = 1 then some "varied_camera" else none,
   fun _ => some [("wrist_cam", 123456)],
   fun _ _ ts => if ts.isEmpty then some (fun _ => [[[(1 : ℚ), 2, 3]]]) else none,
   fun _ _ => fun _ _ => 0,
   fun _ => fun _ => 0⟩

/-- Arguments with resolution 1, keeping idle timesteps. -/
def argsKeep : Args := ⟨1, true⟩

/-- Arguments with resolution 1, pruning idle timesteps. -/
def argsPrune : Args := ⟨1, false⟩

/-- A small but complete trajectory store: two timesteps, two action
families of six components, one hand camera and one varied camera, the
second timestep idle. -/
def store0 : H5 := .grp [
  ("action", .grp [("cartesian_position", .dset [6] [row6 1, row6 10]),
                   ("cartesian_velocity", .dset [6] [row6 20, row6 30])]),
  ("observation", .grp [
     ("camera_type", .grp [("11", .dset [] [.scalar 0]), ("22", .dset [] [.scalar 1])]),
     ("controller_info", .grp [("movement_enabled", .dset [] [.scalar 1, .scalar 0])]),
     ("timestamp", .grp [("cameras", .grp [])])])]

/-- The conversion of `store0` with idle timesteps kept. -/
def outKeep : H5 := (convert_dataset ext0 argsKeep store0).toOption.getD (.grp [])

/-- The conversion of `store0` with idle timesteps pruned. -/
def outPrune : H5 := (convert_dataset ext0 argsPrune store0).toOption.getD (.grp [])

/-- A one-file file system holding the concrete trajectory. -/
def fs0 : FS := [("/data/traj/trajectory.h5", store0)]

/-- The file system after converting the concrete trajectory file. -/
def fsOut : FS :=
  (convert_file ext0 argsKeep fs0 "/data/traj/trajectory.h5").toOption.getD []

/-! ## Properties of the string order -/

theorem lexLe_cons {a b : Char} {as bs : List Char} :
    lexLe (a :: as) (b :: bs) = true ↔
      (a.toNat < b.toNat ∨ (a.toNat = b.toNat ∧ lexLe as bs = true)) := by
  simp only [lexLe]
  split_ifs with h1 h2
  · simp [h1]
  · simp only [Bool.false_eq_true, false_iff]
    push_neg
    constructor
    · omega
    · intro h
      omega
  · have he : a.toNat = b.toNat := by omega
    simp [he]

theorem lexLe_total : ∀ as bs : List Char, lexLe as bs = true ∨ lexLe bs as = true
  | [], _ => .inl rfl
  | _ :: _, [] => .inr rfl
  | a :: as, b :: bs => by
    rw [lexLe_cons, lexLe_cons]
    rcases Nat.lt_trichotomy a.toNat b.toNat with h | h | h
    · exact .inl (.inl h)
    · rcases lexLe_total as bs with ih | ih
      · exact .inl (.inr ⟨h, ih⟩)
      · exact .inr (.inr ⟨h.symm, ih⟩)
    · exact .inr (.inl h)

theorem lexLe_trans : ∀ as bs cs : List Char,
    lexLe as bs = true → lexLe bs cs = true → lexLe as cs = true
  | [], _, _, _, _ => rfl
  | _ :: _, [], _, h, _ => by simp [lexLe] at h
  | _ :: _, _ :: _, [], _, h2 => by simp [lexLe] at h2
  | a :: as, b :: bs, c :: cs, h1, h2 => by
    rw [lexLe_cons] at h1 h2 ⊢
    rcases h1 with h1 | ⟨he1, hl1⟩
    · rcases h2 with h2 | ⟨he2, _⟩
      · exact .inl (h1.trans h2)
      · exact .inl (he2 ▸ h1)
    · rcases h2 with h2 | ⟨he2, hl2⟩
      · exact .inl (he1 ▸ h2)
      · exact .inr ⟨he1.trans he2, lexLe_trans as bs cs hl1 hl2⟩

theorem char_toNat_injective {a b : Char} (h : a.toNat = b.toNat) : a = b := by
  have ha := Char.ofNat_toNat a
  have hb := Char.ofNat_toNat b
  rw [← ha, ← hb, h]

theorem lexLe_antisymm : ∀ as bs : List Char,
    lexLe as bs = true → lexLe bs as = true → as = bs
  | [], [], _, _ => rfl
  | [], _ :: _, _, h => by simp [lexLe] at h
  | _ :: _, [], h, _ => by simp [lexLe] at h
  | a :: as, b :: bs, h1, h2 => by
    rw [lexLe_cons] at h1 h2
    rcases h1 with h1 | ⟨he1, hl1⟩
    · rcases h2 with h2 | ⟨he2, _⟩ <;> omega
    · rcases h2 with h2 | ⟨_, hl2⟩
      · omega
      · rw [char_toNat_injective he1, lexLe_antisymm as bs hl1 hl2]

theorem string_data_injective : ∀ s t : String, s.data = t.data → s = t
  | ⟨_⟩, ⟨_⟩, rfl => rfl

instance : IsTotal String (fun a b => strLe a b = true) :=
  ⟨fun a b => lexLe_total a.data b.data⟩

instance : IsTrans String (fun a b => strLe a b = true) :=
  ⟨fun a b c => lexLe_trans a.data b.data c.data⟩

instance : IsAntisymm String (fun a b => strLe a b = true) :=
  ⟨fun a b h1 h2 => string_data_injective a b (lexLe_antisymm a.data b.data h1 h2)⟩

theorem sortStr_perm (l : List String) : (sortStr l).Perm l :=
  List.perm_insertionSort _ l

theorem sortStr_sorted (l : List String) :
    (sortStr l).Sorted (fun a b => strLe a b = true) :=
  List.sorted_insertionSort _ l

/-- Sorting commutes with an order-preserving relabeling of the
identifiers. -/
theorem sortStr_map (φ : String → String)
    (hφ : ∀ a b, strLe (φ a) (φ b) = strLe a b) (l : List String) :
    sortStr (l.map φ) = (sortStr l).map φ := by
  refine List.eq_of_perm_of_sorted
    ((sortStr_perm _).trans ((sortStr_perm l).map φ).symm)
    (sortStr_sorted _) ?_
  exact List.Pairwise.map φ (fun a b hab => by rw [hφ]; exact hab) (sortStr_sorted l)

theorem sortStr_singleton (s : String) : sortStr [s] = [s] := rfl

/-! ## The camera-identity classification loop -/

theorem classifyCams_ok_char (dict : ℚ → Option String) :
    ∀ items ctd hs vs, classifyCams dict items = .ok (ctd, hs, vs) →
      hs = (items.filter (fun p => dict p.2 == some "hand_camera")).map Prod.fst ∧
      vs = (items.filter (fun p => dict p.2 == some "varied_camera")).map Prod.fst
  | [], ctd, hs, vs, h => by
    simp only [classifyCams, Except.ok.injEq, Prod.mk.injEq] at h
    simp [← h.2.1, ← h.2.2]
  | (k, v) :: rest, ctd, hs, vs, h => by
    cases hd : dict v with
    | none => simp [classifyCams, hd] at h
    | some t =>
      simp only [classifyCams, hd] at h
      split_ifs at h with hb1 hb2
      · have ht : t = "hand_camera" := by simpa using hb1
        subst ht
        cases hc : classifyCams dict rest with
        | error e => rw [hc] at h; exact absurd h (by simp [Except.map])
        | ok r =>
          rw [hc] at h
          simp only [Except.map, Except.ok.injEq, Prod.mk.injEq] at h
          obtain ⟨-, h2, h3⟩ := h
          obtain ⟨hc1, hc2⟩ := classifyCams_ok_char dict rest r.1 r.2.1 r.2.2 (by rw [hc])
          constructor
          · rw [← h2, hc1]; simp [List.filter_cons, hd]
          · rw [← h3, hc2]; simp [List.filter_cons, hd]
      · have ht : t = "varied_camera" := by simpa using hb2
        subst ht
        cases hc : classifyCams dict rest with
        | error e => rw [hc] at h; exact absurd h (by simp [Except.map])
        | ok r =>
          rw [hc] at h
          simp only [Except.map, Except.ok.injEq, Prod.mk.injEq] at h
          obtain ⟨-, h2, h3⟩ := h
          obtain ⟨hc1, hc2⟩ := classifyCams_ok_char dict rest r.1 r.2.1 r.2.2 (by rw [hc])
          have hne : ((some "varied_camera" : Option String) == some "hand_camera") = false := rfl
          constructor
          · rw [← h2, hc1]; simp [List.filter_cons, hd, hne]
          · rw [← h3, hc2]; simp [List.filter_cons, hd]

theorem classifyCams_isOk (dict : ℚ → Option String) :
    ∀ items, (∀ p ∈ items, dict p.2 = some "hand_camera" ∨ dict p.2 = some "varied_camera") →
      ∃ r, classifyCams dict items = .ok r
  | [], _ => ⟨([], [], []), rfl⟩
  | (k, v) :: rest, h => by
    obtain ⟨r, hr⟩ := classifyCams_isOk dict rest (fun p hp => h p (by simp [hp]))
    rcases h (k, v) (by simp) with hd | hd
    · exact ⟨((k, "hand_camera") :: r.1, k :: r.2.1, r.2.2),
        by simp [classifyCams, hd, hr, Except.map]⟩
    · exact ⟨((k, "varied_camera") :: r.1, r.2.1, k :: r.2.2),
        by simp [classifyCams, hd, hr, Except.map,
          show (("varied_camera" : String) == "hand_camera") = false from rfl]⟩

theorem classifyCams_err (dict : ℚ → Option String) :
    ∀ items e, classifyCams dict items = .error e → e = .keyError ∨ e = .valueError
  | [], e, h => by simp [classifyCams] at h
  | (k, v) :: rest, e, h => by
    cases hd : dict v with
    | none =>
      simp only [classifyCams, hd, Except.error.injEq] at h
      exact .inl h.symm
    | some t =>
      simp only [classifyCams, hd] at h
      split_ifs at h
      · cases hc : classifyCams dict rest with
        | error e' =>
          rw [hc] at h
          simp only [Except.map, Except.error.injEq] at h
          exact h ▸ classifyCams_err dict rest e' hc
        | ok r => rw [hc] at h; exact absurd h (by simp [Except.map])
      · cases hc : classifyCams dict rest with
        | error e' =>
          rw [hc] at h
          simp only [Except.map, Except.error.injEq] at h
          exact h ▸ classifyCams_err dict rest e' hc
        | ok r => rw [hc] at h; exact absurd h (by simp [Except.map])
      · simp only [Except.error.injEq] at h
        exact .inr h.symm

theorem classifyCams_map (dict : ℚ → Option String) (φ : String → String) :
    ∀ items, classifyCams dict (items.map (fun p => (φ p.1, p.2))) =
      (classifyCams dict items).map
        (fun r => (r.1.map (fun q => (φ q.1, q.2)), r.2.1.map φ, r.2.2.map φ))
  | [] => rfl
  | (k, v) :: rest => by
    cases hd : dict v with
    | none => simp [classifyCams, hd, Except.map]
    | some t =>
      simp only [List.map_cons, classifyCams, hd, classifyCams_map dict φ rest]
      split_ifs <;> cases classifyCams dict rest <;> simp [Except.map]

/-! ## The camera identity resolver -/

theorem resolve_cams_of_classify {dict : ℚ → Option String} {camItems : List (String × ℚ)}
    {r} (hc : classifyCams dict camItems = .ok r) :
    resolve_cams dict camItems =
      match sortStr r.2.1 with
      | [] => .error .indexError
      | h0 :: _ =>
        .ok (r.1, ("hand_camera_image", h0 ++ "_left") :: varied_slots (sortStr r.2.2)) := by
  simp only [resolve_cams, hc, bind, Except.bind]

theorem varied_slots_length (ids : List String) : (varied_slots ids).length = ids.length := by
  simp [varied_slots]

theorem varied_slots_get (ids : List String) (i : Nat) :
    (varied_slots ids)[i]? =
      ids[i]?.map (fun x => ("varied_camera_" ++ toString (i + 1) ++ "_image", x ++ "_left")) := by
  simp only [varied_slots, List.getElem?_map, List.getElem?_enum]
  cases ids[i]? <;> rfl

theorem varied_name_ne (s t : String) :
    ("varied_camera_" ++ s ++ t) = "hand_camera_image" → False := by
  intro h
  have hd := congrArg String.data h
  simp [String.data_append] at hd

theorem varied_slots_no_hand (ids : List String) :
    (varied_slots ids).filter (fun s => s.1 == "hand_camera_image") = [] := by
  rw [List.filter_eq_nil_iff]
  intro s hs
  simp only [varied_slots, List.mem_map, List.mem_enum] at hs
  obtain ⟨p, -, hp⟩ := hs
  simp only [← hp, beq_iff_eq]
  exact fun h => varied_name_ne (toString (p.1 + 1)) "_image" h

/-- C1: for a store recording exactly one hand camera and M varied
cameras, the resolver yields one `hand_camera_image` slot bound to the
hand camera's id suffixed `_left` and M slots
`varied_camera_1_image .. varied_camera_M_image`, the i-th bound to
the i-th lexicographically smallest varied id suffixed `_left` (`sv`
below is the ascending enumeration of the varied ids); and the slot
structure is invariant under any identifier relabeling `φ` that
preserves the relative lexicographic order. -/
theorem C1_slot_map (dict : ℚ → Option String) (camItems : List (String × ℚ))
    (φ : String → String)
    (hone : ((camItems.filter (fun p => dict p.2 == some "hand_camera")).map Prod.fst).length = 1)
    (htypes : ∀ p ∈ camItems, dict p.2 = some "hand_camera" ∨ dict p.2 = some "varied_camera")
    (hφ : ∀ a b, strLe (φ a) (φ b) = strLe a b) :
    ∃ (ctd : List (String × String)) (slots : List (String × String)) (hid : String)
      (sv : List String),
      resolve_cams dict camItems = .ok (ctd, slots) ∧
      (camItems.filter (fun p => dict p.2 == some "hand_camera")).map Prod.fst = [hid] ∧
      sv.Sorted (fun a b => strLe a b = true) ∧
      sv.Perm ((camItems.filter (fun p => dict p.2 == some "varied_camera")).map Prod.fst) ∧
      slots.length = sv.length + 1 ∧
      slots.head? = some ("hand_camera_image", hid ++ "_left") ∧
      (∀ i x, sv[i]? = some x →
        slots[i + 1]? = some ("varied_camera_" ++ toString (i + 1) ++ "_image", x ++ "_left")) ∧
      (slots.filter (fun s => s.1 == "hand_camera_image")).length = 1 ∧
      (∃ ctd2 slots2,
        resolve_cams dict (camItems.map (fun p => (φ p.1, p.2))) = .ok (ctd2, slots2) ∧
        slots2.head? = some ("hand_camera_image", φ hid ++ "_left") ∧
        slots2.length = slots.length ∧
        ∀ i x, sv[i]? = some x →
          slots2[i + 1]? = some ("varied_camera_" ++ toString (i + 1) ++ "_image", φ x ++ "_left")) := by
  obtain ⟨r, hc⟩ := classifyCams_isOk dict camItems htypes
  obtain ⟨ctdr, hsr, vsr⟩ := r
  obtain ⟨hh, hv⟩ := classifyCams_ok_char dict camItems ctdr hsr vsr hc
  obtain ⟨hid, hhid⟩ : ∃ hid,
      (camItems.filter (fun p => dict p.2 == some "hand_camera")).map Prod.fst = [hid] := by
    cases he : (camItems.filter (fun p => dict p.2 == some "hand_camera")).map Prod.fst with
    | nil => rw [he] at hone; simp at hone
    | cons a l =>
      rw [he] at hone
      cases l with
      | nil => exact ⟨a, rfl⟩
      | cons b l2 => simp at hone
  have hhs : hsr = [hid] := by rw [hh, hhid]
  subst hhs
  subst hv
  set vids := (camItems.filter (fun p => dict p.2 == some "varied_camera")).map Prod.fst
    with hvids
  refine ⟨ctdr, ("hand_camera_image", hid ++ "_left") :: varied_slots (sortStr vids), hid,
    sortStr vids,
    ?_, hhid, sortStr_sorted _, sortStr_perm _, by simp [varied_slots_length], rfl,
    ?_, ?_, ?_⟩
  · rw [resolve_cams_of_classify hc, sortStr_singleton]
  · intro i x hx
    simp only [List.getElem?_cons_succ, varied_slots_get, hx]
    rfl
  · simp only [List.filter_cons, beq_self_eq_true, if_true, varied_slots_no_hand]
    rfl
  · have hcm := classifyCams_map dict φ camItems
    rw [hc] at hcm
    have hcm' : classifyCams dict (camItems.map (fun p => (φ p.1, p.2))) =
        .ok (ctdr.map (fun q => (φ q.1, q.2)), [φ hid], vids.map φ) := by
      rw [hcm]; rfl
    refine ⟨ctdr.map (fun q => (φ q.1, q.2)),
      ("hand_camera_image", φ hid ++ "_left") :: varied_slots (sortStr (vids.map φ)), ?_, rfl,
      ?_, ?_⟩
    · rw [resolve_cams_of_classify hcm', sortStr_singleton]
    · simp [varied_slots_length, sortStr_map φ hφ,
        (sortStr_perm (vids.map φ)).length_eq, (sortStr_perm vids).length_eq]
    · intro i x hx
      rw [sortStr_map φ hφ]
      simp only [List.getElem?_cons_succ, varied_slots_get, List.getElem?_map, hx]
      rfl

/-- C9: the slot-map construction indexes the sorted hand-camera list
at position 0: with exactly one recorded hand camera the resolver
never fails with the out-of-bounds `IndexError`, while a store whose
recorded cameras are all varied (zero hand cameras) makes it fail with
exactly that `IndexError` rather than the unrecognized-camera-type
`ValueError`. -/
theorem C9_hand_camera_indexing (dict : ℚ → Option String) (camItems : List (String × ℚ)) :
    (((camItems.filter (fun p => dict p.2 == some "hand_camera")).map Prod.fst).length = 1 →
      resolve_cams dict camItems ≠ .error .indexError) ∧
    ((∀ p ∈ camItems, dict p.2 = some "varied_camera") →
      resolve_cams dict camItems = .error .indexError) := by
  constructor
  · intro hone hres
    cases hc : classifyCams dict camItems with
    | error e =>
      rw [resolve_cams, hc] at hres
      simp only [bind, Except.bind, Except.error.injEq] at hres
      rcases classifyCams_err dict camItems e hc with h | h <;> simp [h] at hres
    | ok r =>
      obtain ⟨hh, -⟩ := classifyCams_ok_char dict camItems r.1 r.2.1 r.2.2 (by rw [hc])
      rw [resolve_cams_of_classify hc] at hres
      have hlen : (sortStr r.2.1).length = 1 := by
        rw [(sortStr_perm r.2.1).length_eq, hh, hone]
      cases hs : sortStr r.2.1 with
      | nil => rw [hs] at hlen; simp at hlen
      | cons a l => rw [hs] at hres; simp at hres
  · intro hall
    obtain ⟨r, hc⟩ := classifyCams_isOk dict camItems (fun p hp => .inr (hall p hp))
    obtain ⟨hh, -⟩ := classifyCams_ok_char dict camItems r.1 r.2.1 r.2.2 (by rw [hc])
    have hnil : r.2.1 = [] := by
      rw [hh, List.filter_eq_nil_iff.mpr, List.map_nil]
      intro p hp
      rw [hall p hp]
      decide
    rw [resolve_cams_of_classify hc, hnil]
    rfl

/-- Witness for C1: the resolver applied to one hand camera `a` and
varied cameras `b`, `c`, with the identity relabeling. -/
theorem C1_slot_map_witness :
    ∃ (ctd : List (String × String)) (slots : List (String × String)) (hid : String)
      (sv : List String),
      resolve_cams dict0 camItems0 = .ok (ctd, slots) ∧
      (camItems0.filter (fun p => dict0 p.2 == some "hand_camera")).map Prod.fst = [hid] ∧
      sv.Sorted (fun a b => strLe a b = true) ∧
      sv.Perm ((camItems0.filter (fun p => dict0 p.2 == some "varied_camera")).map Prod.fst) ∧
      slots.length = sv.length + 1 ∧
      slots.head? = some ("hand_camera_image", hid ++ "_left") ∧
      (∀ i x, sv[i]? = some x →
        slots[i + 1]? = some ("varied_camera_" ++ toString (i + 1) ++ "_image", x ++ "_left")) ∧
      (slots.filter (fun s => s.1 == "hand_camera_image")).length = 1 ∧
      (∃ ctd2 slots2,
        resolve_cams dict0 (camItems0.map (fun p => (id p.1, p.2))) = .ok (ctd2, slots2) ∧
        slots2.head? = some ("hand_camera_image", id hid ++ "_left") ∧
        slots2.length = slots.length ∧
        ∀ i x, sv[i]? = some x →
          slots2[i + 1]? = some ("varied_camera_" ++ toString (i + 1) ++ "_image", id x ++ "_left")) :=
  C1_slot_map dict0 camItems0 id (by decide) (by decide) (fun a b => rfl)

/-- Witness for C9: with the hand camera `a` recorded the resolver
does not raise the `IndexError`; with only varied cameras it does. -/
theorem C9_hand_camera_indexing_witness :
    resolve_cams dict0 camItems0 ≠ .error .indexError ∧
    resolve_cams dict0 [("b", 1), ("c", 1)] = .error .indexError :=
  ⟨(C9_hand_camera_indexing dict0 camItems0).1 (by decide),
   (C9_hand_camera_indexing dict0 [("b", 1), ("c", 1)]).2 (by decide)⟩

/-! ## The custom image modality -/

/-- C10: over exact rational arithmetic the unprocessor of the custom
image modality inverts the processor. -/
theorem C10_unprocessor_inverts_processor (x : ℚ) :
    custom_image_obs_unprocessor (custom_image_obs_processor x) = x := by
  unfold custom_image_obs_processor custom_image_obs_unprocessor
  ring

/-! ## The timestep pruner -/

theorem getKey?_cons (k : String) (h : H5) (rest : List (String × H5)) (k0 : String) :
    getKey? ((k, h) :: rest) k0 = if k == k0 then some h else getKey? rest k0 := by
  simp only [getKey?, List.find?]
  cases hb : (k == k0) <;> simp [hb, getKey?]

theorem npDelete_ok (rows : List NDArr) (I : List Nat) (h : ∀ i ∈ I, i < rows.length) :
    npDelete rows I = .ok (pruned_rows rows I) := by
  rw [npDelete, if_pos]
  exact List.all_eq_true.mpr (fun i hi => decide_eq_true (h i hi))

mutual

theorem prune_entry_spec (T : Nat) (I : List Nat) (hI : ∀ i ∈ I, i < T) :
    ∀ (h : H5) (k : String), ∃ h' ns,
      prune_items.entry T I k h = .ok (h', ns) ∧
      (∀ p ts rows, getSub p h = some (.dset ts rows) →
        getSub p h' = some (.dset ts (pruneIf T I rows)) ∧
        (rows.length ≠ T → ∀ k', (k :: p).getLast? = some k' → k' ∈ ns)) ∧
      (∀ p gi, getSub p h = some (.grp gi) → ∃ gi', getSub p h' = some (.grp gi'))
  | .dset ts rows, k => by
    by_cases hT : rows.length = T
    · refine ⟨.dset ts (pruned_rows rows I), [], ?_, ?_, ?_⟩
      · simp only [prune_items.entry, show (rows.length == T) = true from beq_iff_eq.mpr hT,
          if_true]
        rw [npDelete_ok rows I (fun i hi => hT ▸ hI i hi)]
        rfl
      · intro p ts2 rows2 hp
        cases p with
        | nil =>
          simp only [getSub, Option.some.injEq, H5.dset.injEq] at hp
          obtain ⟨h1, h2⟩ := hp
          subst h1 h2
          exact ⟨by simp [getSub, pruneIf, hT], fun hne => absurd hT hne⟩
        | cons a q => simp [getSub] at hp
      · intro p gi hp
        cases p <;> simp [getSub] at hp
    · refine ⟨.dset ts rows, [k], ?_, ?_, ?_⟩
      · simp only [prune_items.entry,
          show (rows.length == T) = false from beq_eq_false_iff_ne.mpr hT,
          Bool.false_eq_true, if_false]
      · intro p ts2 rows2 hp
        cases p with
        | nil =>
          simp only [getSub, Option.some.injEq, H5.dset.injEq] at hp
          obtain ⟨h1, h2⟩ := hp
          subst h1 h2
          refine ⟨by simp [getSub, pruneIf, hT], fun _ k' hk' => ?_⟩
          simp only [List.getLast?_singleton, Option.some.injEq] at hk'
          simp [hk']
        | cons a q => simp [getSub] at hp
      · intro p gi hp
        cases p <;> simp [getSub] at hp
  | .grp gitems, k => by
    obtain ⟨items', ns, hok, hd, hg⟩ := prune_items_spec T I hI gitems
    refine ⟨.grp items', ns, ?_, ?_, ?_⟩
    · simp only [prune_items.entry, hok]
      rfl
    · intro p ts rows hp
      cases p with
      | nil => simp [getSub] at hp
      | cons a q =>
        obtain ⟨h1, h2⟩ := hd (a :: q) ts rows hp
        exact ⟨h1, fun hne k' hk' => h2 hne k' (by
          rw [List.getLast?_cons_cons] at hk'
          exact hk')⟩
    · intro p gi hp
      cases p with
      | nil =>
        simp only [getSub, Option.some.injEq, H5.grp.injEq] at hp
        exact ⟨items', by simp [getSub]⟩
      | cons a q => exact hg (a :: q) gi hp

theorem prune_items_spec (T : Nat) (I : List Nat) (hI : ∀ i ∈ I, i < T) :
    ∀ items, ∃ items' ns,
      prune_items T I items = .ok (items', ns) ∧
      (∀ p ts rows, getSub p (H5.grp items) = some (.dset ts rows) →
        getSub p (H5.grp items') = some (.dset ts (pruneIf T I rows)) ∧
        (rows.length ≠ T → ∀ k', p.getLast? = some k' → k' ∈ ns)) ∧
      (∀ p gi, getSub p (H5.grp items) = some (.grp gi) →
        ∃ gi', getSub p (H5.grp items') = some (.grp gi'))
  | [] => by
    refine ⟨[], [], rfl, ?_, ?_⟩
    · intro p ts rows hp
      cases p with
      | nil => simp [getSub] at hp
      | cons a q => simp [getSub, getKey?] at hp
    · intro p gi hp
      cases p with
      | nil =>
        simp only [getSub, Option.some.injEq, H5.grp.injEq] at hp
        exact ⟨[], by simp [getSub]⟩
      | cons a q => simp [getSub, getKey?] at hp
  | (k, h) :: rest => by
    obtain ⟨h', ns1, hek, hed, heg⟩ := prune_entry_spec T I hI h k
    obtain ⟨rest', ns2, hrk, hrd, hrg⟩ := prune_items_spec T I hI rest
    refine ⟨(k, h') :: rest', ns1 ++ ns2, ?_, ?_, ?_⟩
    · simp only [prune_items, hek, hrk, bind, Except.bind]
    · intro p ts rows hp
      cases p with
      | nil => simp [getSub] at hp
      | cons a q =>
        simp only [getSub, getKey?_cons] at hp ⊢
        by_cases hak : (k == a) = true
        · rw [if_pos hak] at hp
          rw [if_pos hak]
          have hka : k = a := beq_iff_eq.mp hak
          obtain ⟨h1, h2⟩ := hed q ts rows hp
          refine ⟨h1, fun hne k' hk' => ?_⟩
          refine List.mem_append.mpr (.inl (h2 hne k' ?_))
          cases q with
          | nil =>
            simp only [List.getLast?_singleton, Option.some.injEq] at hk' ⊢
            rw [hka]
            exact hk'
          | cons b q2 =>
            rw [List.getLast?_cons_cons]
            rw [List.getLast?_cons_cons] at hk'
            exact hk'
        · rw [if_neg hak] at hp
          rw [if_neg hak]
          have := hrd (a :: q) ts rows (by simpa [getSub] using hp)
          refine ⟨by simpa [getSub] using this.1,
            fun hne k' hk' => List.mem_append.mpr (.inr (this.2 hne k' hk'))⟩
    · intro p gi hp
      cases p with
      | nil =>
        simp only [getSub, Option.some.injEq, H5.grp.injEq] at hp
        exact ⟨(k, h') :: rest', by simp [getSub]⟩
      | cons a q =>
        simp only [getSub, getKey?_cons] at hp ⊢
        by_cases hak : (k == a) = true
        · rw [if_pos hak] at hp
          rw [if_pos hak]
          exact heg q gi hp
        · rw [if_neg hak] at hp
          rw [if_neg hak]
          obtain ⟨gi', hgi⟩ := hrg (a :: q) gi (by simpa [getSub] using hp)
          exact ⟨gi', by simpa [getSub] using hgi⟩

end

theorem prune_root_spec (T : Nat) (I : List Nat) (hI : ∀ i ∈ I, i < T) :
    ∀ items, (∀ p ∈ items, ∃ g, (p : String × H5).2 = H5.grp g) →
      ∃ items' ns, prune_root T I items = .ok (items', ns) ∧
        (∀ p ts rows, getSub p (H5.grp items) = some (.dset ts rows) →
          getSub p (H5.grp items') = some (.dset ts (pruneIf T I rows)) ∧
          (rows.length ≠ T → ∀ k', p.getLast? = some k' → k' ∈ ns)) ∧
        (∀ p gi, getSub p (H5.grp items) = some (.grp gi) →
          ∃ gi', getSub p (H5.grp items') = some (.grp gi'))
  | [], _ => by
    refine ⟨[], [], rfl, ?_, ?_⟩
    · intro p ts rows hp
      cases p with
      | nil => simp [getSub] at hp
      | cons a q => simp [getSub, getKey?] at hp
    · intro p gi hp
      cases p with
      | nil =>
        simp only [getSub, Option.some.injEq, H5.grp.injEq] at hp
        exact ⟨[], by simp [getSub]⟩
      | cons a q => simp [getSub, getKey?] at hp
  | (k, h) :: rest, hroot => by
    obtain ⟨g, hg⟩ := hroot (k, h) (by simp)
    simp only at hg
    subst hg
    obtain ⟨gitems', ns1, hek, hed, heg⟩ := prune_items_spec T I hI g
    obtain ⟨rest', ns2, hrk, hrd, hrg⟩ :=
      prune_root_spec T I hI rest (fun p hp => hroot p (by simp [hp]))
    refine ⟨(k, .grp gitems') :: rest', ns1 ++ ns2, ?_, ?_, ?_⟩
    · simp only [prune_root, prune_root_child, hek, hrk, bind, Except.bind, Except.map]
    · intro p ts rows hp
      cases p with
      | nil => simp [getSub] at hp
      | cons a q =>
        simp only [getSub, getKey?_cons] at hp ⊢
        by_cases hak : (k == a) = true
        · rw [if_pos hak] at hp
          rw [if_pos hak]
          obtain ⟨h1, h2⟩ := hed q ts rows hp
          refine ⟨h1, fun hne k' hk' => List.mem_append.mpr (.inl (h2 hne k' ?_))⟩
          cases q with
          | nil => simp [getSub] at hp
          | cons b q2 =>
            rw [List.getLast?_cons_cons] at hk'
            exact hk'
        · rw [if_neg hak] at hp
          rw [if_neg hak]
          have := hrd (a :: q) ts rows (by simpa [getSub] using hp)
          refine ⟨by simpa [getSub] using this.1,
            fun hne k' hk' => List.mem_append.mpr (.inr (this.2 hne k' hk'))⟩
    · intro p gi hp
      cases p with
      | nil =>
        simp only [getSub, Option.some.injEq, H5.grp.injEq] at hp
        exact ⟨(k, .grp gitems') :: rest', by simp [getSub]⟩
      | cons a q =>
        simp only [getSub, getKey?_cons] at hp ⊢
        by_cases hak : (k == a) = true
        · rw [if_pos hak] at hp
          rw [if_pos hak]
          exact heg q gi hp
        · rw [if_neg hak] at hp
          rw [if_neg hak]
          obtain ⟨gi', hgi⟩ := hrg (a :: q) gi (by simpa [getSub] using hp)
          exact ⟨gi', by simpa [getSub] using hgi⟩

/-- C2 counterexample: on a store whose episode length is 1, deleting
the index set `{5}` makes `np.delete` fail with an `IndexError`
instead of rewriting the (unaffected) leaf array, so the pruner does
not rewrite every leaf array for every index set as claimed. -/
theorem C2_pruner_counterexample :
    remove_timesteps (H5.grp [("action", H5.grp [("cartesian_position",
      H5.dset [6] [NDArr.scalar 1])])]) [5] = .error .indexError := rfl

/-- C2 (amended): for a store whose root children are all groups and
an index set all of whose indices are below the episode length (read
from `action/cartesian_position` before pruning), the pruner succeeds,
rewrites every leaf array whose leading dimension equals the episode
length to exactly the rows whose original index is not in the set (in
their original order), leaves every other leaf array unchanged, and
emits a diagnostic notice naming each skipped array. -/
theorem C2_pruner_amended (items : List (String × H5)) (I : List Nat) (trows : List NDArr)
    (hroot : ∀ p ∈ items, ∃ g, (p : String × H5).2 = H5.grp g)
    (hT : read_shape0 ["action", "cartesian_position"] (H5.grp items) = .ok trows)
    (hI : ∀ i ∈ I, i < trows.length) :
    ∃ f' ns, remove_timesteps (H5.grp items) I = .ok (f', ns) ∧
      (∀ p ts rows, getSub p (H5.grp items) = some (.dset ts rows) →
        getSub p f' = some (.dset ts
          (if rows.length = trows.length then pruned_rows rows I else rows))) ∧
      (∀ p ts rows, getSub p (H5.grp items) = some (.dset ts rows) →
        rows.length ≠ trows.length → ∀ k', p.getLast? = some k' → k' ∈ ns) := by
  obtain ⟨items', ns, hok, hd, -⟩ := prune_root_spec trows.length I hI items hroot
  refine ⟨.grp items', ns, ?_, ?_, ?_⟩
  · simp only [remove_timesteps, hT, bind, Except.bind, hok, Except.map]
  · intro p ts rows hp
    simpa [pruneIf] using (hd p ts rows hp).1
  · intro p ts rows hp hne
    exact (hd p ts rows hp).2 hne

/-- Witness for the amended C2: on a store with episode length 2, a
per-timestep array and a per-episode array, removing index 1 keeps row
0 of the per-timestep array, leaves the short array alone and notices
it. -/
theorem C2_pruner_amended_witness :
    ∃ f' ns, remove_timesteps (H5.grp c2Items) [1] = .ok (f', ns) ∧
      (∀ p ts rows, getSub p (H5.grp c2Items) = some (.dset ts rows) →
        getSub p f' = some (.dset ts
          (if rows.length = [NDArr.scalar 1, NDArr.scalar 2].length
           then pruned_rows rows [1] else rows))) ∧
      (∀ p ts rows, getSub p (H5.grp c2Items) = some (.dset ts rows) →
        rows.length ≠ [NDArr.scalar 1, NDArr.scalar 2].length →
        ∀ k', p.getLast? = some k' → k' ∈ ns) :=
  C2_pruner_amended c2Items [1] [NDArr.scalar 1, NDArr.scalar 2]
    (by
      intro p hp
      rcases List.mem_singleton.mp hp with rfl
      exact ⟨_, rfl⟩)
    rfl
    (by decide)

/-! ## Group and path update laws -/

theorem getKey?_append (l1 l2 : List (String × H5)) (k : String) :
    getKey? (l1 ++ l2) k =
      match getKey? l1 k with
      | some v => some v
      | none => getKey? l2 k := by
  induction l1 with
  | nil => simp [getKey?]
  | cons e l ih =>
    obtain ⟨k1, v1⟩ := e
    simp only [List.cons_append, getKey?_cons, ih]
    by_cases hb : (k1 == k) = true
    · simp [hb]
    · simp [hb]

theorem getKey?_delKey (items : List (String × H5)) (k k0 : String) :
    getKey? (delKey items k) k0 = if k == k0 then none else getKey? items k0 := by
  induction items with
  | nil => simp [delKey, getKey?]
  | cons e l ih =>
    obtain ⟨k1, v1⟩ := e
    simp only [delKey, List.filter_cons] at ih ⊢
    by_cases h1 : (k1 == k) = true
    · have hk : k1 = k := beq_iff_eq.mp h1
      subst hk
      simp only [h1, Bool.not_true, Bool.false_eq_true, if_false, ih]
      by_cases h2 : (k1 == k0) = true
      · simp [h2]
      · simp [h2, getKey?_cons]
    · simp only [h1, Bool.not_false, if_true, getKey?_cons, ih]
      by_cases h2 : (k1 == k0) = true
      · have hk : k1 = k0 := beq_iff_eq.mp h2
        subst hk
        have h3 : (k == k1) = false := by
          cases hb : (k == k1)
          · rfl
          · exact absurd (beq_iff_eq.mp hb).symm (by simpa using h1)
        simp [h2, h3]
      · simp [h2]

theorem getKey?_putKey (items : List (String × H5)) (k : String) (v : H5) (k0 : String) :
    getKey? (putKey items k v) k0 = if k == k0 then some v else getKey? items k0 := by
  simp only [putKey, getKey?_append, getKey?_delKey]
  by_cases hb : (k == k0) = true
  · simp [hb, getKey?_cons, getKey?]
  · simp only [hb, Bool.false_eq_true, if_false]
    cases hx : getKey? items k0 with
    | none => simp [getKey?_cons, hb, getKey?]
    | some w => simp

theorem getKey?_replaceKey_self (items : List (String × H5)) (k : String) (v c : H5)
    (h : getKey? items k = some c) :
    getKey? (replaceKey items k v) k = some v := by
  induction items with
  | nil => simp [getKey?] at h
  | cons e l ih =>
    obtain ⟨k1, v1⟩ := e
    rw [getKey?_cons] at h
    simp only [replaceKey, List.map_cons]
    by_cases h1 : (k1 == k) = true
    · simp only [h1, if_true, getKey?_cons, beq_self_eq_true]
    · rw [if_neg h1] at h
      simp only [h1, Bool.false_eq_true, if_false, getKey?_cons, if_neg h1]
      exact ih h

theorem getKey?_replaceKey_ne (items : List (String × H5)) (k : String) (v : H5) (k0 : String)
    (h : k0 ≠ k) :
    getKey? (replaceKey items k v) k0 = getKey? items k0 := by
  induction items with
  | nil => rfl
  | cons e l ih =>
    obtain ⟨k1, v1⟩ := e
    simp only [replaceKey, List.map_cons] at ih ⊢
    have hkk0 : (k == k0) = false := by
      cases hb : (k == k0)
      · rfl
      · exact absurd (beq_iff_eq.mp hb).symm h
    by_cases h1 : (k1 == k) = true
    · have hk : k1 = k := beq_iff_eq.mp h1
      subst hk
      simp only [h1, if_true, getKey?_cons, hkk0, Bool.false_eq_true, if_false, ih]
    · simp only [h1, Bool.false_eq_true, if_false, getKey?_cons, ih]

theorem modSub_ok_iff (F : H5 → Except PyErr H5) :
    ∀ (p : List String) (f f' : H5), modSub F p f = .ok f' ↔
      ∃ h h', getSub p f = some h ∧ F h = .ok h' ∧ f' = setSub h' p f
  | [], f, f' => by
    simp only [modSub, getSub, setSub, Option.some.injEq]
    constructor
    · intro hF
      exact ⟨f, f', rfl, hF, rfl⟩
    · rintro ⟨h, h', rfl, hF, rfl⟩
      exact hF
  | k :: p, .dset ts rows, f' => by
    simp [modSub, getSub]
  | k :: p, .grp items, f' => by
    simp only [modSub, getSub, setSub]
    cases hk : getKey? items k with
    | none => simp
    | some c =>
      simp only [Except.map]
      cases hm : modSub F p c with
      | error e =>
        constructor
        · intro h
          exact absurd h (by simp)
        · rintro ⟨h, h', hg, hF, rfl⟩
          have hmm := (modSub_ok_iff F p c (setSub h' p c)).mpr ⟨h, h', hg, hF, rfl⟩
          rw [hm] at hmm
          exact absurd hmm (by simp)
      | ok c' =>
        obtain ⟨h, h', hg, hF, hc⟩ := (modSub_ok_iff F p c c').mp hm
        constructor
        · intro he
          simp only [Except.ok.injEq] at he
          exact ⟨h, h', hg, hF, by rw [← he, hc]⟩
        · rintro ⟨h2, h2', hg2, hF2, rfl⟩
          rw [hg] at hg2
          injection hg2 with hg2
          subst hg2
          have he' : h2' = h' := by
            rw [hF] at hF2
            injection hF2 with h3
            exact h3.symm
          subst he'
          rw [← hc]

theorem getSub_setSub_append (v : H5) :
    ∀ (p q : List String) (f h : H5), getSub p f = some h →
      getSub (p ++ q) (setSub v p f) = getSub q v
  | [], q, f, h, _ => by simp [setSub]
  | k :: p, q, .dset ts rows, h, hp => by simp [getSub] at hp
  | k :: p, q, .grp items, h, hp => by
    simp only [getSub] at hp
    cases hk : getKey? items k with
    | none => rw [hk] at hp; exact absurd hp (by simp)
    | some c =>
      rw [hk] at hp
      simp only [List.cons_append, setSub, hk, getSub,
        getKey?_replaceKey_self items k (setSub v p c) c hk]
      exact getSub_setSub_append v p q c h hp

theorem getSub_setSub_self (v : H5) (p : List String) (f h : H5) (hp : getSub p f = some h) :
    getSub p (setSub v p f) = some v := by
  have := getSub_setSub_append v p [] f h hp
  simpa [getSub] using this

theorem getSub_setSub_disjoint (v : H5) :
    ∀ (p q : List String) (f : H5), ¬ p <+: q → ¬ q <+: p →
      getSub q (setSub v p f) = getSub q f
  | [], q, f, hpq, _ => absurd (List.nil_prefix) hpq
  | k :: p, [], f, _, hqp => absurd (List.nil_prefix) hqp
  | k :: p, k0 :: q, .dset ts rows, _, _ => by simp [setSub]
  | k :: p, k0 :: q, .grp items, hpq, hqp => by
    cases hk : getKey? items k with
    | none => simp [setSub, hk]
    | some c =>
      simp only [setSub, hk, getSub]
      by_cases hke : k0 = k
      · subst hke
        have hpq' : ¬ p <+: q := fun hc => hpq ((List.prefix_cons_inj _).mpr hc)
        have hqp' : ¬ q <+: p := fun hc => hqp ((List.prefix_cons_inj _).mpr hc)
        rw [getKey?_replaceKey_self items k0 (setSub v p c) c hk, hk]
        exact getSub_setSub_disjoint v p q c hpq' hqp'
      · rw [getKey?_replaceKey_ne items k (setSub v p c) k0 hke]

/-! ## Stage characterizations of the conversion pass -/

theorem ensure_camera_group_ok (f f1 : H5) (h : ensure_camera_group f = .ok f1) :
    ∃ obs, getSub ["observation"] f = some (.grp obs) ∧
      f1 = setSub (.grp (if hasKey obs "camera" then obs
        else obs ++ [("camera", .grp [("image", .grp [])])])) ["observation"] f := by
  rw [ensure_camera_group, modSub_ok_iff] at h
  obtain ⟨o, o', ho, hF, rfl⟩ := h
  cases o with
  | dset ts rows => exact absurd hF (by simp)
  | grp obs =>
    simp only [Except.ok.injEq] at hF
    exact ⟨obs, ho, by rw [hF]⟩

theorem family_write_ok (ext : Ext) (fam pfx : String) (items items' : List (String × H5))
    (h : family_write ext fam pfx items = .ok items') :
    ∃ c rest rows, getKey? items fam = some (.dset (c :: rest) rows) ∧
      items' = putKey (putKey (putKey items
        (pfx ++ "pos") (.dset (min 3 c :: rest) (rows.map row_take3)))
        (pfx ++ "rot_euler") (.dset ((min 6 c - min 3 c) :: rest) (rows.map row_slice36)))
        (pfx ++ "rot_6d") (.dset [6] ((rows.map row_slice36).map (rot6_of ext))) := by
  rw [family_write] at h
  cases hk : getKey? items fam with
  | none => rw [hk] at h; exact absurd h (by simp)
  | some c0 =>
    rw [hk] at h
    cases c0 with
    | grp g => exact absurd h (by simp)
    | dset ts rows =>
      cases ts with
      | nil => exact absurd h (by simp)
      | cons c rest =>
        simp only [Except.ok.injEq] at h
        exact ⟨c, rest, rows, rfl, h.symm⟩

theorem write_actions_ok (ext : Ext) (f f3 : H5) (h : write_actions ext f = .ok f3) :
    ∃ acItems i1 i2, getSub ["action"] f = some (.grp acItems) ∧
      family_write ext "cartesian_position" "abs_" acItems = .ok i1 ∧
      family_write ext "cartesian_velocity" "rel_" i1 = .ok i2 ∧
      f3 = setSub (.grp i2) ["action"] f := by
  rw [write_actions, modSub_ok_iff] at h
  obtain ⟨o, o', ho, hF, rfl⟩ := h
  cases o with
  | dset ts rows => exact absurd hF (by simp)
  | grp acItems =>
    simp only [bind, Except.bind] at hF
    cases h1 : family_write ext "cartesian_position" "abs_" acItems with
    | error e => rw [h1] at hF; exact absurd hF (by simp)
    | ok i1 =>
      rw [h1] at hF
      dsimp only at hF
      cases h2 : family_write ext "cartesian_velocity" "rel_" i1 with
      | error e => rw [h2] at hF; exact absurd hF (by simp)
      | ok i2 =>
        rw [h2] at hF
        simp only [Except.ok.injEq] at hF
        exact ⟨acItems, i1, i2, ho, h1, h2, by rw [hF]⟩

theorem normalize_actions_ok (f f4 : H5) (h : normalize_actions f = .ok f4) :
    ∃ acItems, getSub ["action"] f = some (.grp acItems) ∧
      f4 = setSub (.grp (normalize_ranks acItems)) ["action"] f := by
  rw [normalize_actions, modSub_ok_iff] at h
  obtain ⟨o, o', ho, hF, rfl⟩ := h
  cases o with
  | dset ts rows => exact absurd hF (by simp)
  | grp acItems =>
    simp only [Except.ok.injEq] at hF
    exact ⟨acItems, ho, by rw [hF]⟩

theorem write_images_ok (ext : Ext) (args : Args) (ctd mapping : List (String × String))
    (dlen : Nat) (f f2 : H5) (h : write_images ext args ctd mapping dlen f = .ok f2) :
    ∃ imgItems out, getSub ["observation", "camera", "image"] f = some (.grp imgItems) ∧
      (mapping.foldlM (fun acc (nk : String × String) => do
          let d ← stackFrames (cam_frames ext args ctd dlen nk.2)
          Except.ok (putKey acc nk.1 d)) imgItems) = .ok out ∧
      f2 = setSub (.grp out) ["observation", "camera", "image"] f := by
  rw [write_images, modSub_ok_iff] at h
  obtain ⟨o, o', ho, hF, rfl⟩ := h
  cases o with
  | dset ts rows => exact absurd hF (by simp)
  | grp imgItems =>
    dsimp only at hF
    cases hfold : (mapping.foldlM (fun acc (nk : String × String) => do
        let d ← stackFrames (cam_frames ext args ctd dlen nk.2)
        Except.ok (putKey acc nk.1 d)) imgItems) with
    | error e => rw [hfold] at hF; exact absurd hF (by simp [Except.map])
    | ok out =>
      rw [hfold] at hF
      simp only [Except.map, Except.ok.injEq] at hF
      exact ⟨imgItems, out, ho, hfold, by rw [hF]⟩

theorem convert_ok_elim (ext : Ext) (args : Args) (f0 out : H5)
    (h : convert_dataset ext args f0 = .ok out) :
    ∃ demoRows f1 camItems res f2 f3 f4 mrows,
      read_shape0 ["action", "cartesian_position"] f0 = .ok demoRows ∧
      ensure_camera_group f0 = .ok f1 ∧
      (getSub ["observation", "camera", "image"] f1).isSome ∧
      read_cam_types f1 = .ok camItems ∧
      resolve_cams ext.camera_type_to_string camItems = .ok res ∧
      check_ts_reads ext demoRows.length = .ok () ∧
      write_images ext args res.1 res.2 demoRows.length f1 = .ok f2 ∧
      write_actions ext f2 = .ok f3 ∧
      normalize_actions f3 = .ok f4 ∧
      read_shape0 ["observation", "controller_info", "movement_enabled"] f4 = .ok mrows ∧
      ((args.keep_idle_timesteps = true ∧ out = f4) ∨
       (args.keep_idle_timesteps = false ∧
        ∃ ns, remove_timesteps f4 (false_idxs mrows) = .ok (out, ns))) := by
  rw [convert_dataset] at h
  simp only [bind, Except.bind] at h
  cases h0 : read_shape0 ["action", "cartesian_position"] f0 with
  | error e => rw [h0] at h; exact absurd h (by simp)
  | ok demoRows =>
  rw [h0] at h
  dsimp only at h
  cases h1 : ensure_camera_group f0 with
  | error e => rw [h1] at h; exact absurd h (by simp)
  | ok f1 =>
  rw [h1] at h
  dsimp only at h
  cases h2 : getSub ["observation", "camera", "image"] f1 with
  | none => rw [h2] at h; exact absurd h (by simp)
  | some img =>
  rw [h2] at h
  dsimp only at h
  cases h3 : read_cam_types f1 with
  | error e => rw [h3] at h; exact absurd h (by simp)
  | ok camItems =>
  rw [h3] at h
  dsimp only at h
  cases h4 : resolve_cams ext.camera_type_to_string camItems with
  | error e => rw [h4] at h; exact absurd h (by simp)
  | ok res =>
  rw [h4] at h
  dsimp only at h
  cases h5 : check_ts_reads ext demoRows.length with
  | error e => rw [h5] at h; exact absurd h (by simp)
  | ok u =>
  rw [h5] at h
  dsimp only at h
  cases h6 : write_images ext args res.1 res.2 demoRows.length f1 with
  | error e => rw [h6] at h; exact absurd h (by simp)
  | ok f2 =>
  rw [h6] at h
  dsimp only at h
  cases h7 : write_actions ext f2 with
  | error e => rw [h7] at h; exact absurd h (by simp)
  | ok f3 =>
  rw [h7] at h
  dsimp only at h
  cases h8 : normalize_actions f3 with
  | error e => rw [h8] at h; exact absurd h (by simp)
  | ok f4 =>
  rw [h8] at h
  dsimp only at h
  cases h9 : read_shape0 ["observation", "controller_info", "movement_enabled"] f4 with
  | error e => rw [h9] at h; exact absurd h (by simp)
  | ok mrows =>
  rw [h9] at h
  dsimp only at h
  refine ⟨demoRows, f1, camItems, res, f2, f3, f4, mrows,
    rfl, rfl, by simp [h2], h3, h4, h5, h6, h7, h8, h9, ?_⟩
  cases hkeep : args.keep_idle_timesteps with
  | true =>
    rw [hkeep] at h
    simp only [if_true, Except.ok.injEq] at h
    exact .inl ⟨rfl, h.symm⟩
  | false =>
    rw [hkeep] at h
    simp only [Bool.false_eq_true, if_false] at h
    cases hrt : remove_timesteps f4 (false_idxs mrows) with
    | error e => rw [hrt] at h; exact absurd h (by simp [Except.map])
    | ok pr =>
      rw [hrt] at h
      simp only [Except.map, Except.ok.injEq] at h
      exact .inr ⟨rfl, pr.2, by rw [← h]⟩

/-! ## Effect lemmas for the conversion stages -/

theorem getSub_append :
    ∀ (q s : List String) (f : H5), getSub (q ++ s) f =
      match getSub q f with
      | some h => getSub s h
      | none => none
  | [], s, f => by simp [getSub]
  | k :: q, s, .dset ts rows => by simp [getSub]
  | k :: q, s, .grp items => by
    simp only [List.cons_append, getSub]
    cases getKey? items k with
    | none => rfl
    | some c => exact getSub_append q s c

theorem getSub_setSub_of_dset (v : H5) (p q : List String) (f h : H5)
    (hp : getSub p f = some h) (hnot : ¬ p <+: q) (ts : List Nat) (rows : List NDArr)
    (hq : getSub q f = some (.dset ts rows)) :
    getSub q (setSub v p f) = getSub q f := by
  refine getSub_setSub_disjoint v p q f hnot ?_
  intro hqp
  obtain ⟨s, hs⟩ := hqp
  cases s with
  | nil => exact hnot (by simp [← hs])
  | cons a s' =>
    have := getSub_append q (a :: s') f
    rw [hs, hp, hq] at this
    simp [getSub] at this

theorem normVal_idem (h : H5) : normVal (normVal h) = normVal h := by
  cases h with
  | grp items => rfl
  | dset ts rows => cases ts <;> rfl

theorem getKey?_normalize_entry (acc : List (String × H5)) (k k0 : String) :
    getKey? (normalize_entry acc k) k0 =
      if k = k0 then (getKey? acc k0).map normVal else getKey? acc k0 := by
  rw [normalize_entry]
  by_cases hk : k = k0
  · subst hk
    cases hx : getKey? acc k with
    | none => simp [hx]
    | some v =>
      cases v with
      | grp g => simp [hx, normVal]
      | dset ts rows =>
        cases ts with
        | nil => simp [hx, getKey?_putKey, normVal]
        | cons c rest => simp [hx, normVal]
  · cases hx : getKey? acc k with
    | none => simp [hk]
    | some v =>
      cases v with
      | grp g => simp [hk]
      | dset ts rows =>
        cases ts with
        | nil =>
          simp only [getKey?_putKey]
          rw [if_neg (by simpa using hk), if_neg (by simpa using hk)]
        | cons c rest => simp [hk]

theorem getKey?_normalize_fold :
    ∀ (l : List String) (acc : List (String × H5)) (k0 : String),
      getKey? (l.foldl normalize_entry acc) k0 =
        if k0 ∈ l then (getKey? acc k0).map normVal else getKey? acc k0
  | [], acc, k0 => by simp
  | a :: l, acc, k0 => by
    rw [List.foldl_cons, getKey?_normalize_fold l (normalize_entry acc a) k0,
      getKey?_normalize_entry]
    by_cases ha : a = k0
    · subst ha
      by_cases hl : a ∈ l
      · rw [if_pos hl, if_pos rfl, if_pos (by simp)]
        cases getKey? acc a <;> simp [normVal_idem]
      · rw [if_neg hl, if_pos rfl, if_pos (by simp)]
    · by_cases hl : k0 ∈ l
      · rw [if_pos hl, if_neg ha, if_pos (by simp [hl])]
      · rw [if_neg hl, if_neg ha,
          if_neg (by simp only [List.mem_cons, not_or]; exact ⟨fun h => ha h.symm, hl⟩)]

theorem getKey?_eq_none_of_not_mem (items : List (String × H5)) (k0 : String)
    (h : k0 ∉ items.map Prod.fst) : getKey? items k0 = none := by
  induction items with
  | nil => rfl
  | cons e l ih =>
    obtain ⟨k1, v1⟩ := e
    simp only [List.map_cons, List.mem_cons] at h
    push_neg at h
    rw [getKey?_cons, if_neg (by simpa using (fun hx => h.1 (beq_iff_eq.mp hx).symm))]
    exact ih h.2

theorem getKey?_normalize_ranks (items : List (String × H5)) (k0 : String) :
    getKey? (normalize_ranks items) k0 = (getKey? items k0).map normVal := by
  rw [normalize_ranks, getKey?_normalize_fold]
  by_cases hm : k0 ∈ items.map Prod.fst
  · simp [hm]
  · simp [hm, getKey?_eq_none_of_not_mem items k0 hm]

theorem stackFrames_shape (fl : List Frame) (d : H5) (h : stackFrames fl = .ok d) :
    ∃ ts rows, d = .dset ts rows ∧ rows.length = fl.length := by
  cases fl with
  | nil =>
    simp only [stackFrames, Except.ok.injEq] at h
    exact ⟨[], [], h.symm, rfl⟩
  | cons f0 rest =>
    rw [stackFrames] at h
    split_ifs at h with hc
    · simp only [Except.ok.injEq] at h
      exact ⟨_, _, h.symm, by simp⟩

theorem cam_frames_length (ext : Ext) (args : Args) (ctd : List (String × String))
    (dlen : Nat) (imKey : String) : (cam_frames ext args ctd dlen imKey).length = dlen := by
  simp [cam_frames]

/-! ## Counting lemmas for pruning -/

theorem countP_add_countP_not (l : List Nat) (p : Nat → Bool) :
    l.countP p + l.countP (fun a => !(p a)) = l.length := by
  induction l with
  | nil => rfl
  | cons a t ih =>
    simp only [List.countP_cons]
    cases hp : p a <;> simp [hp] <;> omega

theorem pruned_rows_length (rows : List NDArr) (I : List Nat) (hnd : I.Nodup)
    (hlt : ∀ i ∈ I, i < rows.length) :
    (pruned_rows rows I).length = rows.length - I.length := by
  have h1 : (pruned_rows rows I).length =
      (List.range rows.length).countP (fun i => !(I.contains i)) := by
    rw [pruned_rows, List.length_map, ← List.countP_eq_length_filter]
    have h2 : rows.enum.countP (fun q => !(I.contains q.1)) =
        (rows.enum.map Prod.fst).countP (fun i => !(I.contains i)) := by
      rw [List.countP_map]
      rfl
    rw [h2, List.enum_map_fst]
  have hperm : ((List.range rows.length).filter (fun i => I.contains i)).Perm I := by
    refine (List.perm_ext_iff_of_nodup (List.Nodup.filter _ (List.nodup_range _)) hnd).mpr
      (fun a => ?_)
    simp only [List.mem_filter, List.mem_range, List.elem_eq_mem, decide_eq_true_eq]
    exact ⟨fun hx => hx.2, fun hx => ⟨hlt a hx, hx⟩⟩
  have h3 : (List.range rows.length).countP (fun i => I.contains i) = I.length := by
    rw [List.countP_eq_length_filter]
    exact hperm.length_eq
  have h4 := countP_add_countP_not (List.range rows.length) (fun i => I.contains i)
  rw [h3, List.length_range] at h4
  rw [h1]
  omega

theorem false_idxs_lt (rows : List NDArr) : ∀ i ∈ false_idxs rows, i < rows.length := by
  intro i hi
  simp only [false_idxs, List.mem_map, List.mem_filter] at hi
  obtain ⟨q, ⟨hq, -⟩, rfl⟩ := hi
  have := List.mem_enum_iff_getElem?.mp hq
  have hlt := List.getElem?_eq_some.mp this
  exact hlt.1

theorem false_idxs_nodup (rows : List NDArr) : (false_idxs rows).Nodup := by
  have h1 : (false_idxs rows) = ((rows.enum.filter (fun p => match p.2 with
      | .scalar q => q == 0
      | .arr _ => false)).map Prod.fst) := rfl
  rw [h1]
  refine List.Nodup.map_on ?_ (List.Nodup.filter _ ?_)
  · intro x hx y hy hxy
    rw [List.mem_filter] at hx hy
    have hx1 := List.mem_enum_iff_getElem?.mp hx.1
    have hy1 := List.mem_enum_iff_getElem?.mp hy.1
    rw [hxy] at hx1
    rw [hx1] at hy1
    injection hy1 with hy2
    obtain ⟨x1, x2⟩ := x
    obtain ⟨y1, y2⟩ := y
    simp only at hxy hy2 ⊢
    rw [hxy, hy2]
  · refine List.Nodup.of_map Prod.fst ?_
    rw [List.enum_map_fst]
    exact List.nodup_range _

theorem false_idxs_countP (rows : List NDArr) :
    (false_idxs rows).length = rows.countP (fun r => match r with
      | .scalar q => q == 0
      | .arr _ => false) := by
  rw [false_idxs, List.length_map, ← List.countP_eq_length_filter]
  have h2 : rows.enum.countP (fun q => match q.2 with
      | .scalar v => v == 0
      | .arr _ => false) =
      (rows.enum.map Prod.snd).countP (fun r => match r with
        | .scalar v => v == 0
        | .arr _ => false) := by
    rw [List.countP_map]
    rfl
  rw [h2, List.enum_map_snd]

theorem pruned_rows_map (g : NDArr → NDArr) (rows : List NDArr) (I : List Nat) :
    pruned_rows (rows.map g) I = (pruned_rows rows I).map g := by
  simp only [pruned_rows, List.enum_map]
  rw [List.filter_map, List.map_map, List.map_map]
  rfl

/-! ## Reverse-direction pruning lemmas -/

theorem npDelete_ok_inv (rows rows' : List NDArr) (I : List Nat)
    (h : npDelete rows I = .ok rows') : rows' = pruned_rows rows I := by
  rw [npDelete] at h
  split_ifs at h
  injection h with h1
  exact h1.symm

mutual

theorem prune_entry_rev (T : Nat) (I : List Nat) :
    ∀ (h : H5) (k : String) (h' : H5) (ns : List String),
      prune_items.entry T I k h = .ok (h', ns) →
      ∀ p ts rows', getSub p h' = some (.dset ts rows') →
        ∃ rows0, getSub p h = some (.dset ts rows0) ∧ rows' = pruneIf T I rows0
  | .dset ts0 rows0, k, h', ns, he => by
    rw [prune_items.entry] at he
    split_ifs at he with hT
    · cases hd : npDelete rows0 I with
      | error e => rw [hd] at he; exact absurd he (by simp [Except.map])
      | ok rows1 =>
        rw [hd] at he
        simp only [Except.map, Except.ok.injEq, Prod.mk.injEq] at he
        obtain ⟨he1, -⟩ := he
        intro p ts rows' hp
        rw [← he1] at hp
        cases p with
        | nil =>
          simp only [getSub, Option.some.injEq, H5.dset.injEq] at hp
          obtain ⟨hp1, hp2⟩ := hp
          refine ⟨rows0, by simp [getSub, hp1], ?_⟩
          rw [← hp2, npDelete_ok_inv rows0 rows1 I hd, pruneIf, if_pos (beq_iff_eq.mp hT)]
        | cons a q => simp [getSub] at hp
    · simp only [Except.ok.injEq, Prod.mk.injEq] at he
      obtain ⟨he1, -⟩ := he
      intro p ts rows' hp
      rw [← he1] at hp
      cases p with
      | nil =>
        simp only [getSub, Option.some.injEq, H5.dset.injEq] at hp
        obtain ⟨hp1, hp2⟩ := hp
        exact ⟨rows0, by simp [getSub, hp1],
          by rw [← hp2, pruneIf, if_neg (by simpa using hT)]⟩
      | cons a q => simp [getSub] at hp
  | .grp gitems, k, h', ns, he => by
    rw [prune_items.entry] at he
    cases hx : prune_items T I gitems with
    | error e => rw [hx] at he; exact absurd he (by simp [Except.map])
    | ok r =>
      rw [hx] at he
      simp only [Except.map, Except.ok.injEq, Prod.mk.injEq] at he
      obtain ⟨he1, -⟩ := he
      intro p ts rows' hp
      rw [← he1] at hp
      cases p with
      | nil => simp [getSub] at hp
      | cons a q =>
        exact prune_items_rev T I gitems r.1 r.2 (by rw [hx]) (a :: q) ts rows' hp

theorem prune_items_rev (T : Nat) (I : List Nat) :
    ∀ (items items' : List (String × H5)) (ns : List String),
      prune_items T I items = .ok (items', ns) →
      ∀ p ts rows', getSub p (H5.grp items') = some (.dset ts rows') →
        ∃ rows0, getSub p (H5.grp items) = some (.dset ts rows0) ∧
          rows' = pruneIf T I rows0
  | [], items', ns, h => by
    simp only [prune_items, Except.ok.injEq, Prod.mk.injEq] at h
    obtain ⟨h1, -⟩ := h
    subst h1
    intro p ts rows' hp
    cases p with
    | nil => simp [getSub] at hp
    | cons a q => simp [getSub, getKey?] at hp
  | (k, h0) :: rest, items', ns, h => by
    rw [prune_items] at h
    simp only [bind, Except.bind] at h
    cases he : prune_items.entry T I k h0 with
    | error e => rw [he] at h; exact absurd h (by simp)
    | ok r =>
      rw [he] at h
      dsimp only at h
      cases hr : prune_items T I rest with
      | error e => rw [hr] at h; exact absurd h (by simp)
      | ok rr =>
        rw [hr] at h
        simp only [Except.ok.injEq, Prod.mk.injEq] at h
        obtain ⟨h1, -⟩ := h
        subst h1
        intro p ts rows' hp
        cases p with
        | nil => simp [getSub] at hp
        | cons a q =>
          simp only [getSub, getKey?_cons] at hp ⊢
          by_cases hak : (k == a) = true
          · rw [if_pos hak] at hp
            rw [if_pos hak]
            exact prune_entry_rev T I h0 k r.1 r.2 (by rw [he]) q ts rows' hp
          · rw [if_neg hak] at hp
            rw [if_neg hak]
            obtain ⟨rows2, hrows2, heq⟩ :=
              prune_items_rev T I rest rr.1 rr.2 (by rw [hr]) (a :: q) ts rows'
                (by simpa [getSub] using hp)
            exact ⟨rows2, by simpa [getSub] using hrows2, heq⟩

end

theorem prune_root_rev (T : Nat) (I : List Nat) :
    ∀ (items items' : List (String × H5)) (ns : List String),
      prune_root T I items = .ok (items', ns) →
      ∀ p ts rows', getSub p (H5.grp items') = some (.dset ts rows') →
        ∃ rows0, getSub p (H5.grp items) = some (.dset ts rows0) ∧
          rows' = pruneIf T I rows0
  | [], items', ns, h => by
    simp only [prune_root, Except.ok.injEq, Prod.mk.injEq] at h
    obtain ⟨h1, -⟩ := h
    subst h1
    intro p ts rows' hp
    cases p with
    | nil => simp [getSub] at hp
    | cons a q => simp [getSub, getKey?] at hp
  | (k, h0) :: rest, items', ns, h => by
    rw [prune_root] at h
    simp only [bind, Except.bind] at h
    cases he : prune_root_child T I h0 with
    | error e => rw [he] at h; exact absurd h (by simp)
    | ok r =>
      obtain ⟨r1, r2⟩ := r
      rw [he] at h
      dsimp only at h
      cases hr : prune_root T I rest with
      | error e => rw [hr] at h; exact absurd h (by simp)
      | ok rr =>
        rw [hr] at h
        simp only [Except.ok.injEq, Prod.mk.injEq] at h
        obtain ⟨h1, -⟩ := h
        subst h1
        intro p ts rows' hp
        cases p with
        | nil => simp [getSub] at hp
        | cons a q =>
          simp only [getSub, getKey?_cons] at hp ⊢
          by_cases hak : (k == a) = true
          · rw [if_pos hak] at hp
            rw [if_pos hak]
            cases h0 with
            | dset ts0 rows0 =>
              rw [prune_root_child] at he
              split_ifs at he with hemp
              simp only [Except.ok.injEq, Prod.mk.injEq] at he
              obtain ⟨he1, -⟩ := he
              rw [← he1] at hp
              cases q with
              | nil =>
                simp only [getSub, Option.some.injEq, H5.dset.injEq] at hp
                obtain ⟨hp1, hp2⟩ := hp
                have hnil : rows0 = [] := by
                  simpa using hemp
                refine ⟨rows0, by simp [getSub, hp1], ?_⟩
                subst hnil
                rw [← hp2]
                by_cases h0T : ([] : List NDArr).length = T
                · rw [pruneIf, if_pos h0T]
                  rfl
                · rw [pruneIf, if_neg h0T]
              | cons b q2 => simp [getSub] at hp
            | grp gitems =>
              rw [prune_root_child] at he
              cases hx : prune_items T I gitems with
              | error e => rw [hx] at he; exact absurd he (by simp [Except.map])
              | ok rg =>
                rw [hx] at he
                simp only [Except.map, Except.ok.injEq, Prod.mk.injEq] at he
                obtain ⟨he1, -⟩ := he
                rw [← he1] at hp
                exact prune_items_rev T I gitems rg.1 rg.2 (by rw [hx]) q ts rows' hp
          · rw [if_neg hak] at hp
            rw [if_neg hak]
            obtain ⟨rows2, hrows2, heq⟩ :=
              prune_root_rev T I rest rr.1 rr.2 (by rw [hr]) (a :: q) ts rows'
                (by simpa [getSub] using hp)
            exact ⟨rows2, by simpa [getSub] using hrows2, heq⟩

/-! ## Image-write fold lemmas -/

theorem images_fold_miss (ext : Ext) (args : Args) (ctd : List (String × String)) (dlen : Nat) :
    ∀ (mapping : List (String × String)) (acc out : List (String × H5)),
      (mapping.foldlM (fun acc (nk : String × String) => do
          let d ← stackFrames (cam_frames ext args ctd dlen nk.2)
          Except.ok (putKey acc nk.1 d)) acc) = .ok out →
      ∀ k0, (∀ q ∈ mapping, q.1 ≠ k0) → getKey? out k0 = getKey? acc k0
  | [], acc, out, h => by
    simp only [List.foldlM_nil] at h
    intro k0 _
    injection h with h1
    rw [h1]
  | nk :: mapping, acc, out, h => by
    rw [List.foldlM_cons] at h
    simp only [bind, Except.bind] at h
    cases hs : stackFrames (cam_frames ext args ctd dlen nk.2) with
    | error e => rw [hs] at h; exact absurd h (by simp)
    | ok d =>
      rw [hs] at h
      dsimp only at h
      intro k0 hk0
      rw [images_fold_miss ext args ctd dlen mapping (putKey acc nk.1 d) out h k0
        (fun q hq => hk0 q (List.mem_cons_of_mem nk hq))]
      rw [getKey?_putKey]
      rw [if_neg (by
        intro hb
        exact hk0 nk (List.mem_cons_self nk mapping) (beq_iff_eq.mp hb))]

theorem images_fold_cases (ext : Ext) (args : Args) (ctd : List (String × String)) (dlen : Nat) :
    ∀ (mapping : List (String × String)) (acc out : List (String × H5)),
      (mapping.foldlM (fun acc (nk : String × String) => do
          let d ← stackFrames (cam_frames ext args ctd dlen nk.2)
          Except.ok (putKey acc nk.1 d)) acc) = .ok out →
      ∀ k0 v, getKey? out k0 = some v →
        getKey? acc k0 = some v ∨ ∃ ts rows, v = .dset ts rows ∧ rows.length = dlen
  | [], acc, out, h => by
    simp only [List.foldlM_nil] at h
    intro k0 v hv
    injection h with h1
    rw [← h1] at hv
    exact .inl hv
  | nk :: mapping, acc, out, h => by
    rw [List.foldlM_cons] at h
    simp only [bind, Except.bind] at h
    cases hs : stackFrames (cam_frames ext args ctd dlen nk.2) with
    | error e => rw [hs] at h; exact absurd h (by simp)
    | ok d =>
      rw [hs] at h
      dsimp only at h
      intro k0 v hv
      rcases images_fold_cases ext args ctd dlen mapping (putKey acc nk.1 d) out h k0 v hv with
        hc | hc
      · rw [getKey?_putKey] at hc
        by_cases hb : (nk.1 == k0) = true
        · rw [if_pos hb] at hc
          injection hc with hc1
          obtain ⟨ts, rows, hd, hlen⟩ := stackFrames_shape _ d hs
          refine .inr ⟨ts, rows, by rw [← hc1, hd], ?_⟩
          rw [hlen, cam_frames_length]
        · rw [if_neg hb] at hc
          exact .inl hc
      · exact .inr hc

theorem images_fold_hit (ext : Ext) (args : Args) (ctd : List (String × String)) (dlen : Nat) :
    ∀ (mapping : List (String × String)) (acc out : List (String × H5)),
      (mapping.foldlM (fun acc (nk : String × String) => do
          let d ← stackFrames (cam_frames ext args ctd dlen nk.2)
          Except.ok (putKey acc nk.1 d)) acc) = .ok out →
      ∀ nm key, (nm, key) ∈ mapping → (∀ q ∈ mapping, q.1 = nm → q.2 = key) →
        ∃ d, stackFrames (cam_frames ext args ctd dlen key) = .ok d ∧
          getKey? out nm = some d
  | [], acc, out, h => by
    intro nm key hmem
    simp at hmem
  | nk :: mapping, acc, out, h => by
    rw [List.foldlM_cons] at h
    simp only [bind, Except.bind] at h
    cases hs : stackFrames (cam_frames ext args ctd dlen nk.2) with
    | error e => rw [hs] at h; exact absurd h (by simp)
    | ok d =>
      rw [hs] at h
      dsimp only at h
      intro nm key hmem huniq
      by_cases htail : ∃ q ∈ mapping, q.1 = nm
      · obtain ⟨q, hq, hq1⟩ := htail
        have hq2 : q.2 = key := huniq q (List.mem_cons_of_mem nk hq) hq1
        have hqm : (nm, key) ∈ mapping := by
          have : q = (nm, key) := by
            obtain ⟨q1, q2⟩ := q
            simp only at hq1 hq2
            rw [hq1, hq2]
          rw [← this]
          exact hq
        exact images_fold_hit ext args ctd dlen mapping (putKey acc nk.1 d) out h nm key hqm
          (fun q hq hq1 => huniq q (List.mem_cons_of_mem nk hq) hq1)
      · push_neg at htail
        have hnk : nk = (nm, key) := by
          rcases List.mem_cons.mp hmem with hc | hc
          · exact hc.symm
          · exact absurd rfl (htail (nm, key) hc)
        subst hnk
        refine ⟨d, hs, ?_⟩
        rw [images_fold_miss ext args ctd dlen mapping (putKey acc nm d) out h nm
          (fun q hq => htail q hq)]
        rw [getKey?_putKey, if_pos (beq_self_eq_true nm)]

theorem getKey?_append_left (l1 l2 : List (String × H5)) (k : String) (v : H5)
    (h : getKey? l1 k = some v) : getKey? (l1 ++ l2) k = some v := by
  rw [getKey?_append, h]

theorem images_fold_fwd (ext : Ext) (args : Args) (ctd : List (String × String)) (dlen : Nat) :
    ∀ (mapping : List (String × String)) (acc out : List (String × H5)),
      (mapping.foldlM (fun acc (nk : String × String) => do
          let d ← stackFrames (cam_frames ext args ctd dlen nk.2)
          Except.ok (putKey acc nk.1 d)) acc) = .ok out →
      ∀ k0 v0, getKey? acc k0 = some v0 →
        ∃ v, getKey? out k0 = some v ∧
          (v = v0 ∨ ∃ ts rows, v = .dset ts rows ∧ rows.length = dlen)
  | [], acc, out, h => by
    simp only [List.foldlM_nil] at h
    intro k0 v0 hv
    injection h with h1
    rw [← h1]
    exact ⟨v0, hv, .inl rfl⟩
  | nk :: mapping, acc, out, h => by
    rw [List.foldlM_cons] at h
    simp only [bind, Except.bind] at h
    cases hs : stackFrames (cam_frames ext args ctd dlen nk.2) with
    | error e => rw [hs] at h; exact absurd h (by simp)
    | ok d =>
      rw [hs] at h
      dsimp only at h
      intro k0 v0 hv
      by_cases hb : (nk.1 == k0) = true
      · have hput : getKey? (putKey acc nk.1 d) k0 = some d := by
          rw [getKey?_putKey, if_pos hb]
        obtain ⟨v, hvout, hcase⟩ :=
          images_fold_fwd ext args ctd dlen mapping (putKey acc nk.1 d) out h k0 d hput
        obtain ⟨ts, rows, hdts, hlen⟩ := stackFrames_shape _ d hs
        refine ⟨v, hvout, ?_⟩
        rcases hcase with rfl | hc
        · exact .inr ⟨ts, rows, hdts, by rw [hlen, cam_frames_length]⟩
        · exact .inr hc
      · have hput : getKey? (putKey acc nk.1 d) k0 = some v0 := by
          rw [getKey?_putKey, if_neg hb]
          exact hv
        exact images_fold_fwd ext args ctd dlen mapping (putKey acc nk.1 d) out h k0 v0 hput

/-! ## Forward pruning under a successful run -/

mutual

theorem prune_entry_fwd (T : Nat) (I : List Nat) :
    ∀ (h : H5) (k : String) (h' : H5) (ns : List String),
      prune_items.entry T I k h = .ok (h', ns) →
      ∀ p ts rows, getSub p h = some (.dset ts rows) →
        getSub p h' = some (.dset ts (pruneIf T I rows))
  | .dset ts0 rows0, k, h', ns, he => by
    rw [prune_items.entry] at he
    split_ifs at he with hT
    · cases hd : npDelete rows0 I with
      | error e => rw [hd] at he; exact absurd he (by simp [Except.map])
      | ok rows1 =>
        rw [hd] at he
        simp only [Except.map, Except.ok.injEq, Prod.mk.injEq] at he
        obtain ⟨he1, -⟩ := he
        intro p ts rows hp
        cases p with
        | nil =>
          simp only [getSub, Option.some.injEq, H5.dset.injEq] at hp
          obtain ⟨hp1, hp2⟩ := hp
          rw [← he1]
          simp only [getSub, Option.some.injEq, H5.dset.injEq]
          subst hp1 hp2
          exact ⟨rfl, by rw [npDelete_ok_inv rows0 rows1 I hd, pruneIf,
            if_pos (beq_iff_eq.mp hT)]⟩
        | cons a q => simp [getSub] at hp
    · simp only [Except.ok.injEq, Prod.mk.injEq] at he
      obtain ⟨he1, -⟩ := he
      intro p ts rows hp
      cases p with
      | nil =>
        simp only [getSub, Option.some.injEq, H5.dset.injEq] at hp
        obtain ⟨hp1, hp2⟩ := hp
        rw [← he1]
        simp only [getSub, Option.some.injEq, H5.dset.injEq]
        subst hp1 hp2
        exact ⟨rfl, by rw [pruneIf, if_neg (by simpa using hT)]⟩
      | cons a q => simp [getSub] at hp
  | .grp gitems, k, h', ns, he => by
    rw [prune_items.entry] at he
    cases hx : prune_items T I gitems with
    | error e => rw [hx] at he; exact absurd he (by simp [Except.map])
    | ok r =>
      rw [hx] at he
      simp only [Except.map, Except.ok.injEq, Prod.mk.injEq] at he
      obtain ⟨he1, -⟩ := he
      intro p ts rows hp
      cases p with
      | nil => simp [getSub] at hp
      | cons a q =>
        rw [← he1]
        exact prune_items_fwd T I gitems r.1 r.2 (by rw [hx]) (a :: q) ts rows hp

theorem prune_items_fwd (T : Nat) (I : List Nat) :
    ∀ (items items' : List (String × H5)) (ns : List String),
      prune_items T I items = .ok (items', ns) →
      ∀ p ts rows, getSub p (H5.grp items) = some (.dset ts rows) →
        getSub p (H5.grp items') = some (.dset ts (pruneIf T I rows))
  | [], items', ns, h => by
    intro p ts rows hp
    cases p with
    | nil => simp [getSub] at hp
    | cons a q => simp [getSub, getKey?] at hp
  | (k, h0) :: rest, items', ns, h => by
    rw [prune_items] at h
    simp only [bind, Except.bind] at h
    cases he : prune_items.entry T I k h0 with
    | error e => rw [he] at h; exact absurd h (by simp)
    | ok r =>
      rw [he] at h
      dsimp only at h
      cases hr : prune_items T I rest with
      | error e => rw [hr] at h; exact absurd h (by simp)
      | ok rr =>
        rw [hr] at h
        simp only [Except.ok.injEq, Prod.mk.injEq] at h
        obtain ⟨h1, -⟩ := h
        subst h1
        intro p ts rows hp
        cases p with
        | nil => simp [getSub] at hp
        | cons a q =>
          simp only [getSub, getKey?_cons] at hp ⊢
          by_cases hak : (k == a) = true
          · rw [if_pos hak] at hp
            rw [if_pos hak]
            exact prune_entry_fwd T I h0 k r.1 r.2 (by rw [he]) q ts rows hp
          · rw [if_neg hak] at hp
            rw [if_neg hak]
            have := prune_items_fwd T I rest rr.1 rr.2 (by rw [hr]) (a :: q) ts rows
              (by simpa [getSub] using hp)
            simpa [getSub] using this

end

theorem prune_root_fwd (T : Nat) (I : List Nat) :
    ∀ (items items' : List (String × H5)) (ns : List String),
      prune_root T I items = .ok (items', ns) →
      ∀ p ts rows, getSub p (H5.grp items) = some (.dset ts rows) →
        getSub p (H5.grp items') = some (.dset ts (pruneIf T I rows))
  | [], items', ns, h => by
    intro p ts rows hp
    cases p with
    | nil => simp [getSub] at hp
    | cons a q => simp [getSub, getKey?] at hp
  | (k, h0) :: rest, items', ns, h => by
    rw [prune_root] at h
    simp only [bind, Except.bind] at h
    cases he : prune_root_child T I h0 with
    | error e => rw [he] at h; exact absurd h (by simp)
    | ok r =>
      obtain ⟨r1, r2⟩ := r
      rw [he] at h
      dsimp only at h
      cases hr : prune_root T I rest with
      | error e => rw [hr] at h; exact absurd h (by simp)
      | ok rr =>
        rw [hr] at h
        simp only [Except.ok.injEq, Prod.mk.injEq] at h
        obtain ⟨h1, -⟩ := h
        subst h1
        intro p ts rows hp
        cases p with
        | nil => simp [getSub] at hp
        | cons a q =>
          simp only [getSub, getKey?_cons] at hp ⊢
          by_cases hak : (k == a) = true
          · rw [if_pos hak] at hp
            rw [if_pos hak]
            cases h0 with
            | dset ts0 rows0 =>
              rw [prune_root_child] at he
              split_ifs at he with hemp
              simp only [Except.ok.injEq, Prod.mk.injEq] at he
              obtain ⟨he1, -⟩ := he
              rw [← he1]
              cases q with
              | nil =>
                simp only [getSub, Option.some.injEq, H5.dset.injEq] at hp ⊢
                obtain ⟨hp1, hp2⟩ := hp
                have hnil : rows0 = [] := by simpa using hemp
                subst hnil hp1
                refine ⟨rfl, ?_⟩
                rw [← hp2]
                by_cases h0T : ([] : List NDArr).length = T
                · rw [pruneIf, if_pos h0T]
                  rfl
                · rw [pruneIf, if_neg h0T]
              | cons b q2 => simp [getSub] at hp
            | grp gitems =>
              rw [prune_root_child] at he
              cases hx : prune_items T I gitems with
              | error e => rw [hx] at he; exact absurd he (by simp [Except.map])
              | ok rg =>
                rw [hx] at he
                simp only [Except.map, Except.ok.injEq, Prod.mk.injEq] at he
                obtain ⟨he1, -⟩ := he
                rw [← he1]
                exact prune_items_fwd T I gitems rg.1 rg.2 (by rw [hx]) q ts rows hp
          · rw [if_neg hak] at hp
            rw [if_neg hak]
            have := prune_root_fwd T I rest rr.1 rr.2 (by rw [hr]) (a :: q) ts rows
              (by simpa [getSub] using hp)
            simpa [getSub] using this

theorem remove_timesteps_ok_elim (f : H5) (I : List Nat) (out : H5) (ns : List String)
    (h : remove_timesteps f I = .ok (out, ns)) :
    ∃ trows items items',
      read_shape0 ["action", "cartesian_position"] f = .ok trows ∧
      f = .grp items ∧ out = .grp items' ∧
      prune_root trows.length I items = .ok (items', ns) := by
  rw [remove_timesteps] at h
  simp only [bind, Except.bind] at h
  cases h0 : read_shape0 ["action", "cartesian_position"] f with
  | error e => rw [h0] at h; exact absurd h (by simp)
  | ok trows =>
    rw [h0] at h
    dsimp only at h
    cases f with
    | dset ts rows => exact absurd h (by simp)
    | grp items =>
      dsimp only at h
      cases hr : prune_root trows.length I items with
      | error e => rw [hr] at h; exact absurd h (by simp [Except.map])
      | ok pr =>
        rw [hr] at h
        simp only [Except.map, Except.ok.injEq, Prod.mk.injEq] at h
        obtain ⟨h1, h2⟩ := h
        exact ⟨trows, items, pr.1, rfl, rfl, h1.symm, by rw [hr, ← h2]⟩

theorem getSub_single (k : String) (g : List (String × H5)) :
    getSub [k] (.grp g) = getKey? g k := by
  cases hk : getKey? g k with
  | none => simp [getSub, hk]
  | some c => simp [getSub, hk]

theorem normVal_dset_rank (h : H5) (ts : List Nat) (rows : List NDArr)
    (he : normVal h = .dset ts rows) : ts ≠ [] := by
  cases h with
  | grp g => simp [normVal] at he
  | dset ts0 rows0 =>
    cases ts0 with
    | nil =>
      simp only [normVal, H5.dset.injEq] at he
      rw [← he.1]
      simp
    | cons c rest =>
      simp only [normVal, H5.dset.injEq] at he
      rw [← he.1]
      simp

theorem normVal_length (h : H5) (ts : List Nat) (rows : List NDArr)
    (he : normVal h = .dset ts rows) :
    ∃ ts0 rows0, h = .dset ts0 rows0 ∧ rows.length = rows0.length := by
  cases h with
  | grp g => simp [normVal] at he
  | dset ts0 rows0 =>
    cases ts0 with
    | nil =>
      simp only [normVal, H5.dset.injEq] at he
      exact ⟨[], rows0, rfl, by rw [← he.2]; simp⟩
    | cons c rest =>
      simp only [normVal, H5.dset.injEq] at he
      exact ⟨c :: rest, rows0, rfl, by rw [← he.2]⟩

/-- Looking up `action/<k>` after the rank-normalization pass. -/
theorem normalize_actions_lookup (f3 f4 : H5) (acItems : List (String × H5))
    (hac : getSub ["action"] f3 = some (.grp acItems))
    (h : normalize_actions f3 = .ok f4) (k : String) :
    getSub ["action", k] f4 = (getKey? acItems k).map normVal := by
  obtain ⟨acItems2, hac2, hf4⟩ := normalize_actions_ok f3 f4 h
  rw [hac] at hac2
  injection hac2 with hac2
  injection hac2 with hac2
  subst hac2
  rw [hf4]
  have := getSub_setSub_append (.grp (normalize_ranks acItems)) ["action"] [k] f3 _ hac
  simp only [List.cons_append, List.nil_append] at this
  rw [this, getSub_single, getKey?_normalize_ranks]

/-- The camera-group creation step never touches any dataset. -/
theorem ensure_preserves_dsets (f f1 : H5) (h : ensure_camera_group f = .ok f1) :
    ∀ q ts rows, getSub q f = some (.dset ts rows) → getSub q f1 = some (.dset ts rows) := by
  obtain ⟨obs, ho, hf1⟩ := ensure_camera_group_ok f f1 h
  intro q ts rows hq
  subst hf1
  by_cases hpre : ["observation"] <+: q
  · obtain ⟨r, hr⟩ := hpre
    subst hr
    have h1 := getSub_setSub_append (.grp (if hasKey obs "camera" then obs
      else obs ++ [("camera", .grp [("image", .grp [])])])) ["observation"] r f _ ho
    rw [h1]
    have h2 := getSub_append ["observation"] r f
    rw [ho] at h2
    rw [h2] at hq
    by_cases hcam : hasKey obs "camera"
    · rw [if_pos hcam]
      exact hq
    · rw [if_neg hcam]
      cases r with
      | nil => simp [getSub] at hq
      | cons k r2 =>
        simp only [getSub] at hq ⊢
        cases hk : getKey? obs k with
        | none => rw [hk] at hq; exact absurd hq (by simp)
        | some c =>
          rw [hk] at hq
          rw [getKey?_append_left obs _ k c hk]
          exact hq
  · have hd := getSub_setSub_of_dset (H5.grp (if hasKey obs "camera" then obs
      else obs ++ [("camera", H5.grp [("image", H5.grp [])])])) ["observation"] q f _ ho hpre
      ts rows hq
    rw [hd]
    exact hq

/-- The image-writing step preserves every dataset of leading dimension
`dlen`, assuming the direct children of the image group are datasets. -/
theorem write_images_dimT (ext : Ext) (args : Args) (ctd mapping : List (String × String))
    (dlen : Nat) (f1 f2 : H5)
    (h : write_images ext args ctd mapping dlen f1 = .ok f2)
    (himgds : ∀ gi, getSub ["observation", "camera", "image"] f1 = some (.grp gi) →
      ∀ k v, getKey? gi k = some v → ∃ ts rows, v = H5.dset ts rows) :
    ∀ q ts rows, getSub q f1 = some (.dset ts rows) → rows.length = dlen →
      ∃ ts' rows', getSub q f2 = some (.dset ts' rows') ∧ rows'.length = dlen := by
  obtain ⟨imgItems, outImg, ho, hfold, hf2⟩ :=
    write_images_ok ext args ctd mapping dlen f1 f2 h
  intro q ts rows hq hlen
  subst hf2
  by_cases hpre : ["observation", "camera", "image"] <+: q
  · obtain ⟨r, hr⟩ := hpre
    subst hr
    have h1 := getSub_setSub_append (.grp outImg) ["observation", "camera", "image"] r f1 _ ho
    rw [h1]
    have h2 := getSub_append ["observation", "camera", "image"] r f1
    rw [ho] at h2
    rw [h2] at hq
    cases r with
    | nil => simp [getSub] at hq
    | cons k r2 =>
      simp only [getSub] at hq ⊢
      cases hk : getKey? imgItems k with
      | none => rw [hk] at hq; exact absurd hq (by simp)
      | some c =>
        rw [hk] at hq
        obtain ⟨ts0, rows0, hc⟩ := himgds imgItems ho k c hk
        subst hc
        cases r2 with
        | nil =>
          simp only [getSub, Option.some.injEq, H5.dset.injEq] at hq
          obtain ⟨hq1, hq2⟩ := hq
          obtain ⟨v, hv, hcase⟩ := images_fold_fwd ext args ctd dlen mapping imgItems outImg
            hfold k _ hk
          rw [hv]
          rcases hcase with rfl | ⟨ts2, rows2, rfl, hlen2⟩
          · exact ⟨ts0, rows0, by simp [getSub], by rw [← hq2] at hlen; exact hlen⟩
          · exact ⟨ts2, rows2, by simp [getSub], hlen2⟩
        | cons b r3 => simp [getSub] at hq
  · rw [getSub_setSub_of_dset _ ["observation", "camera", "image"] q f1 _ ho hpre ts rows hq]
    exact ⟨ts, rows, hq, hlen⟩

/-- C6: after conversion every persisted array directly under the
root-level action group has rank at least 2 (its shape has a non-empty
row part); the rank-normalization pass itself rewrites a rank-1 entry
of shape `[T]` into shape `[T, 1]` by wrapping each scalar row in a
singleton, and leaves entries of rank at least 2 unchanged. -/
theorem C6_action_rank (ext : Ext) (args : Args) (f0 out : H5)
    (hok : convert_dataset ext args f0 = .ok out) :
    (∀ k ts rows, getSub ["action", k] out = some (.dset ts rows) → ts ≠ []) ∧
    (∀ (items : List (String × H5)) (k : String) (rows : List NDArr),
      getKey? items k = some (.dset [] rows) →
      getKey? (normalize_ranks items) k =
        some (.dset [1] (rows.map (fun r => .arr [r])))) ∧
    (∀ (items : List (String × H5)) (k : String) (c : Nat) (rest : List Nat)
      (rows : List NDArr),
      getKey? items k = some (.dset (c :: rest) rows) →
      getKey? (normalize_ranks items) k = some (.dset (c :: rest) rows)) := by
  refine ⟨?_, ?_, ?_⟩
  · obtain ⟨demoRows, f1, camItems, res, f2, f3, f4, mrows, h0, h1, h2, h3, h4, h5, h6, h7,
      h8, h9, hlast⟩ := convert_ok_elim ext args f0 out hok
    obtain ⟨acItems3, hac3, hf4⟩ := normalize_actions_ok f3 f4 h8
    have hf4look : ∀ k, getSub ["action", k] f4 = (getKey? acItems3 k).map normVal :=
      fun k => normalize_actions_lookup f3 f4 acItems3 hac3 h8 k
    have hrank : ∀ k ts rows, getSub ["action", k] f4 = some (.dset ts rows) → ts ≠ [] := by
      intro k ts rows hk
      rw [hf4look k] at hk
      cases hx : getKey? acItems3 k with
      | none => rw [hx] at hk; simp at hk
      | some v =>
        rw [hx] at hk
        simp only [Option.map] at hk
        injection hk with hk1
        exact normVal_dset_rank v ts rows hk1
    intro k ts rows hk
    rcases hlast with ⟨-, rfl⟩ | ⟨-, ns, hrt⟩
    · exact hrank k ts rows hk
    · obtain ⟨trows, items4, items', hT4, hfg, hog, hpr⟩ :=
        remove_timesteps_ok_elim f4 (false_idxs mrows) out ns hrt
      subst hog
      obtain ⟨rows0, hrows0, -⟩ := prune_root_rev trows.length (false_idxs mrows)
        items4 items' ns hpr ["action", k] ts rows hk
      rw [← hfg] at hrows0
      exact hrank k ts rows0 hrows0
  · intro items k rows hk
    rw [getKey?_normalize_ranks, hk]
    rfl
  · intro items k c rest rows hk
    rw [getKey?_normalize_ranks, hk]
    rfl

/-- Witness for C6 on the concrete trajectory `store0` (pruning run):
applies the theorem at a successfully evaluated conversion. -/
theorem C6_action_rank_witness :
    (∀ k ts rows, getSub ["action", k] outPrune = some (.dset ts rows) → ts ≠ []) ∧
    (∀ (items : List (String × H5)) (k : String) (rows : List NDArr),
      getKey? items k = some (.dset [] rows) →
      getKey? (normalize_ranks items) k =
        some (.dset [1] (rows.map (fun r => .arr [r])))) ∧
    (∀ (items : List (String × H5)) (k : String) (c : Nat) (rest : List Nat)
      (rows : List NDArr),
      getKey? items k = some (.dset (c :: rest) rows) →
      getKey? (normalize_ranks items) k = some (.dset (c :: rest) rows)) :=
  C6_action_rank ext0 argsPrune store0 outPrune rfl

theorem not_prefix_of_ne_head (a b : String) (p q : List String) (h : a ≠ b) :
    ¬ (a :: p) <+: (b :: q) := by
  rintro ⟨t, ht⟩
  simp only [List.cons_append, List.cons.injEq] at ht
  exact h ht.1

theorem getSub_snoc (p : List String) (k : String) (f : H5) (g : List (String × H5))
    (h : getSub p f = some (.grp g)) : getSub (p ++ [k]) f = getKey? g k := by
  have ha := getSub_append p [k] f
  rw [h] at ha
  dsimp only at ha
  rw [ha, getSub_single]

/-- The first two mutation stages do not touch the action group. -/
theorem stages12_action (ext : Ext) (args : Args) (ctd mapping : List (String × String))
    (dlen : Nat) (f0 f1 f2 : H5)
    (h1 : ensure_camera_group f0 = .ok f1)
    (h6 : write_images ext args ctd mapping dlen f1 = .ok f2) :
    getSub ["action"] f2 = getSub ["action"] f0 := by
  obtain ⟨obs, ho, hf1⟩ := ensure_camera_group_ok f0 f1 h1
  obtain ⟨imgItems, outImg, ho2, hfold, hf2⟩ := write_images_ok ext args ctd mapping dlen f1 f2 h6
  subst hf2
  rw [getSub_setSub_disjoint _ _ _ _
    (not_prefix_of_ne_head _ _ _ _ (by decide))
    (not_prefix_of_ne_head _ _ _ _ (by decide))]
  subst hf1
  rw [getSub_setSub_disjoint _ _ _ _
    (not_prefix_of_ne_head _ _ _ _ (by decide))
    (not_prefix_of_ne_head _ _ _ _ (by decide))]

theorem pruneIf_map (T : Nat) (I : List Nat) (g : NDArr → NDArr) (rows : List NDArr) :
    pruneIf T I (rows.map g) = (pruneIf T I rows).map g := by
  rw [pruneIf, pruneIf, List.length_map]
  by_cases h : rows.length = T
  · rw [if_pos h, if_pos h, pruned_rows_map]
  · rw [if_neg h, if_neg h]

/-- Complete description of the action group after the two family
writes. -/
theorem write_actions_lookups (ext : Ext) (acItems i1 i2 : List (String × H5))
    (h1 : family_write ext "cartesian_position" "abs_" acItems = .ok i1)
    (h2 : family_write ext "cartesian_velocity" "rel_" i1 = .ok i2) :
    ∃ c1 rest1 rows1 c2 rest2 rows2,
      getKey? acItems "cartesian_position" = some (.dset (c1 :: rest1) rows1) ∧
      getKey? acItems "cartesian_velocity" = some (.dset (c2 :: rest2) rows2) ∧
      getKey? i2 "cartesian_position" = some (.dset (c1 :: rest1) rows1) ∧
      getKey? i2 "cartesian_velocity" = some (.dset (c2 :: rest2) rows2) ∧
      getKey? i2 "abs_pos" = some (.dset (min 3 c1 :: rest1) (rows1.map row_take3)) ∧
      getKey? i2 "abs_rot_euler" =
        some (.dset ((min 6 c1 - min 3 c1) :: rest1) (rows1.map row_slice36)) ∧
      getKey? i2 "abs_rot_6d" =
        some (.dset [6] ((rows1.map row_slice36).map (rot6_of ext))) ∧
      getKey? i2 "rel_pos" = some (.dset (min 3 c2 :: rest2) (rows2.map row_take3)) ∧
      getKey? i2 "rel_rot_euler" =
        some (.dset ((min 6 c2 - min 3 c2) :: rest2) (rows2.map row_slice36)) ∧
      getKey? i2 "rel_rot_6d" =
        some (.dset [6] ((rows2.map row_slice36).map (rot6_of ext))) ∧
      (∀ k v, getKey? i2 k = some v → getKey? acItems k = some v ∨
        k ∈ ["abs_pos", "abs_rot_euler", "abs_rot_6d",
             "rel_pos", "rel_rot_euler", "rel_rot_6d"]) := by
  obtain ⟨c1, rest1, rows1, hk1, hi1⟩ := family_write_ok ext _ _ acItems i1 h1
  obtain ⟨c2, rest2, rows2, hk2, hi2⟩ := family_write_ok ext _ _ i1 i2 h2
  subst hi1
  have hvel : getKey? acItems "cartesian_velocity" = some (.dset (c2 :: rest2) rows2) := by
    simpa [getKey?_putKey] using hk2
  refine ⟨c1, rest1, rows1, c2, rest2, rows2, hk1, hvel, ?_, ?_, ?_, ?_, ?_, ?_, ?_, ?_, ?_⟩
  · rw [hi2]
    simp [getKey?_putKey, hk1]
  · rw [hi2]
    simp [getKey?_putKey, hvel]
  · rw [hi2]
    simp [getKey?_putKey]
  · rw [hi2]
    simp [getKey?_putKey]
  · rw [hi2]
    simp [getKey?_putKey]
  · rw [hi2]
    simp [getKey?_putKey]
  · rw [hi2]
    simp [getKey?_putKey]
  · rw [hi2]
    simp [getKey?_putKey]
  · intro k v hv
    rw [hi2] at hv
    simp only [getKey?_putKey] at hv
    split_ifs at hv with b1 b2 b3 b4 b5 b6
    · refine .inr (by
        have := beq_iff_eq.mp b1
        simp at this
        simp [← this])
    · refine .inr (by
        have := beq_iff_eq.mp b2
        simp at this
        simp [← this])
    · refine .inr (by
        have := beq_iff_eq.mp b3
        simp at this
        simp [← this])
    · refine .inr (by
        have := beq_iff_eq.mp b4
        simp at this
        simp [← this])
    · refine .inr (by
        have := beq_iff_eq.mp b5
        simp at this
        simp [← this])
    · refine .inr (by
        have := beq_iff_eq.mp b6
        simp at this
        simp [← this])
    · exact .inl hv

/-- C5: for the two action families (`cartesian_position` with prefix
`abs_`, `cartesian_velocity` with prefix `rel_`) the conversion
persists exactly the three derived arrays per family, replacing any
existing entries of the same names: `pos` holds the first three
components of each persisted raw action row, `rot_euler` components
3..5, and `rot_6d` the 6d representation obtained through the external
rotation conversions under the `"XYZ"` convention; any other dataset
under the action group already existed in the source store. -/
theorem C5_action_families (ext : Ext) (args : Args) (f0 out : H5)
    (hok : convert_dataset ext args f0 = .ok out) :
    (∃ ts rowsP,
      getSub ["action", "cartesian_position"] out = some (.dset ts rowsP) ∧
      (∃ ts1, getSub ["action", "abs_pos"] out =
        some (.dset ts1 (rowsP.map row_take3))) ∧
      (∃ ts2, getSub ["action", "abs_rot_euler"] out =
        some (.dset ts2 (rowsP.map row_slice36))) ∧
      getSub ["action", "abs_rot_6d"] out =
        some (.dset [6] ((rowsP.map row_slice36).map (rot6_of ext)))) ∧
    (∃ ts rowsV,
      getSub ["action", "cartesian_velocity"] out = some (.dset ts rowsV) ∧
      (∃ ts1, getSub ["action", "rel_pos"] out =
        some (.dset ts1 (rowsV.map row_take3))) ∧
      (∃ ts2, getSub ["action", "rel_rot_euler"] out =
        some (.dset ts2 (rowsV.map row_slice36))) ∧
      getSub ["action", "rel_rot_6d"] out =
        some (.dset [6] ((rowsV.map row_slice36).map (rot6_of ext)))) ∧
    (∀ k ts rows, getSub ["action", k] out = some (.dset ts rows) →
      (∃ v, getSub ["action", k] f0 = some v) ∨
      k ∈ ["abs_pos", "abs_rot_euler", "abs_rot_6d",
           "rel_pos", "rel_rot_euler", "rel_rot_6d"]) := by
  obtain ⟨demoRows, f1, camItems, res, f2, f3, f4, mrows, h0, h1, h2, h3, h4, h5, h6, h7,
    h8, h9, hlast⟩ := convert_ok_elim ext args f0 out hok
  obtain ⟨acItems, i1, i2, hacf2, hfam1, hfam2, hf3⟩ := write_actions_ok ext f2 f3 h7
  have hacf0 : getSub ["action"] f0 = some (.grp acItems) := by
    rw [← stages12_action ext args res.1 res.2 demoRows.length f0 f1 f2 h1 h6]
    exact hacf2
  obtain ⟨c1, rest1, rows1, c2, rest2, rows2, hk1, hk2, hq1, hq2, ha1, ha2, ha3, hr1, hr2,
    hr3, hprov⟩ := write_actions_lookups ext acItems i1 i2 hfam1 hfam2
  have hacf3 : getSub ["action"] f3 = some (.grp i2) := by
    rw [hf3]
    exact getSub_setSub_self _ ["action"] f2 _ hacf2
  obtain ⟨acItems3, hac3, hf4⟩ := normalize_actions_ok f3 f4 h8
  rw [hacf3] at hac3
  injection hac3 with hac3
  injection hac3 with hac3
  subst hac3
  have hf4look : ∀ k, getSub ["action", k] f4 = (getKey? i2 k).map normVal :=
    fun k => normalize_actions_lookup f3 f4 i2 hacf3 h8 k
  have hcp4 : getSub ["action", "cartesian_position"] f4 = some (.dset (c1 :: rest1) rows1) := by
    rw [hf4look, hq1]
    rfl
  have hcv4 : getSub ["action", "cartesian_velocity"] f4 = some (.dset (c2 :: rest2) rows2) := by
    rw [hf4look, hq2]
    rfl
  have hap4 : getSub ["action", "abs_pos"] f4 =
      some (.dset (min 3 c1 :: rest1) (rows1.map row_take3)) := by
    rw [hf4look, ha1]
    rfl
  have hae4 : getSub ["action", "abs_rot_euler"] f4 =
      some (.dset ((min 6 c1 - min 3 c1) :: rest1) (rows1.map row_slice36)) := by
    rw [hf4look, ha2]
    rfl
  have ha64 : getSub ["action", "abs_rot_6d"] f4 =
      some (.dset [6] ((rows1.map row_slice36).map (rot6_of ext))) := by
    rw [hf4look, ha3]
    rfl
  have hrp4 : getSub ["action", "rel_pos"] f4 =
      some (.dset (min 3 c2 :: rest2) (rows2.map row_take3)) := by
    rw [hf4look, hr1]
    rfl
  have hre4 : getSub ["action", "rel_rot_euler"] f4 =
      some (.dset ((min 6 c2 - min 3 c2) :: rest2) (rows2.map row_slice36)) := by
    rw [hf4look, hr2]
    rfl
  have hr64 : getSub ["action", "rel_rot_6d"] f4 =
      some (.dset [6] ((rows2.map row_slice36).map (rot6_of ext))) := by
    rw [hf4look, hr3]
    rfl
  have hprov4 : ∀ k ts rows, getSub ["action", k] f4 = some (.dset ts rows) →
      (∃ v, getSub ["action", k] f0 = some v) ∨
      k ∈ ["abs_pos", "abs_rot_euler", "abs_rot_6d",
           "rel_pos", "rel_rot_euler", "rel_rot_6d"] := by
    intro k ts rows hk
    rw [hf4look] at hk
    cases hx : getKey? i2 k with
    | none => rw [hx] at hk; simp at hk
    | some v =>
      rcases hprov k v hx with hc | hc
      · refine .inl ⟨v, ?_⟩
        have hsn := getSub_snoc ["action"] k f0 acItems hacf0
        simp only [List.cons_append, List.nil_append] at hsn
        rw [hsn]
        exact hc
      · exact .inr hc
  rcases hlast with ⟨-, rfl⟩ | ⟨-, ns, hrt⟩
  · exact ⟨⟨c1 :: rest1, rows1, hcp4, ⟨_, hap4⟩, ⟨_, hae4⟩, ha64⟩,
      ⟨c2 :: rest2, rows2, hcv4, ⟨_, hrp4⟩, ⟨_, hre4⟩, hr64⟩, hprov4⟩
  · obtain ⟨trows, items4, items', hT4, hfg, hog, hpr⟩ :=
      remove_timesteps_ok_elim f4 (false_idxs mrows) out ns hrt
    have htr : trows = rows1 := by
      rw [read_shape0] at hT4
      rw [hfg] at hcp4
      rw [hfg, hcp4] at hT4
      injection hT4 with hT4
      exact hT4.symm
    subst htr
    subst hog
    have hfwd := prune_root_fwd trows.length (false_idxs mrows) items4 items' ns hpr
    rw [hfg] at hcp4 hcv4 hap4 hae4 ha64 hrp4 hre4 hr64
    have hpc := hfwd _ _ _ hcp4
    have hpv := hfwd _ _ _ hcv4
    have hpap := hfwd _ _ _ hap4
    have hpae := hfwd _ _ _ hae4
    have hpa6 := hfwd _ _ _ ha64
    have hprp := hfwd _ _ _ hrp4
    have hpre := hfwd _ _ _ hre4
    have hpr6 := hfwd _ _ _ hr64
    rw [pruneIf_map] at hpap hpae hprp hpre
    have h6a : pruneIf trows.length (false_idxs mrows) ((trows.map row_slice36).map
        (rot6_of ext)) = ((pruneIf trows.length (false_idxs mrows) trows).map
          row_slice36).map (rot6_of ext) := by
      rw [pruneIf_map, pruneIf_map]
    have h6r : pruneIf trows.length (false_idxs mrows) ((rows2.map row_slice36).map
        (rot6_of ext)) = ((pruneIf trows.length (false_idxs mrows) rows2).map
          row_slice36).map (rot6_of ext) := by
      rw [pruneIf_map, pruneIf_map]
    rw [h6a] at hpa6
    rw [h6r] at hpr6
    refine ⟨⟨c1 :: rest1, pruneIf trows.length (false_idxs mrows) trows, hpc,
        ⟨_, hpap⟩, ⟨_, hpae⟩, hpa6⟩,
      ⟨c2 :: rest2, pruneIf trows.length (false_idxs mrows) rows2, hpv,
        ⟨_, hprp⟩, ⟨_, hpre⟩, hpr6⟩, ?_⟩
    intro k ts rows hk
    obtain ⟨rows0, hrows0, -⟩ := prune_root_rev trows.length (false_idxs mrows)
      items4 items' ns hpr ["action", k] ts rows hk
    rw [← hfg] at hrows0
    exact hprov4 k ts rows0 hrows0

/-- Witness for C5 on the concrete trajectory `store0` (pruning run). -/
theorem C5_action_families_witness :
    (∃ ts rowsP,
      getSub ["action", "cartesian_position"] outPrune = some (.dset ts rowsP) ∧
      (∃ ts1, getSub ["action", "abs_pos"] outPrune =
        some (.dset ts1 (rowsP.map row_take3))) ∧
      (∃ ts2, getSub ["action", "abs_rot_euler"] outPrune =
        some (.dset ts2 (rowsP.map row_slice36))) ∧
      getSub ["action", "abs_rot_6d"] outPrune =
        some (.dset [6] ((rowsP.map row_slice36).map (rot6_of ext0)))) ∧
    (∃ ts rowsV,
      getSub ["action", "cartesian_velocity"] outPrune = some (.dset ts rowsV) ∧
      (∃ ts1, getSub ["action", "rel_pos"] outPrune =
        some (.dset ts1 (rowsV.map row_take3))) ∧
      (∃ ts2, getSub ["action", "rel_rot_euler"] outPrune =
        some (.dset ts2 (rowsV.map row_slice36))) ∧
      getSub ["action", "rel_rot_6d"] outPrune =
        some (.dset [6] ((rowsV.map row_slice36).map (rot6_of ext0)))) ∧
    (∀ k ts rows, getSub ["action", k] outPrune = some (.dset ts rows) →
      (∃ v, getSub ["action", k] store0 = some v) ∨
      k ∈ ["abs_pos", "abs_rot_euler", "abs_rot_6d",
           "rel_pos", "rel_rot_euler", "rel_rot_6d"]) :=
  C5_action_families ext0 argsPrune store0 outPrune rfl

theorem not_prefix_of_ne_tail (a b c : String) (p q : List String) (h : b ≠ c) :
    ¬ (a :: b :: p) <+: (a :: c :: q) := by
  rintro ⟨t, ht⟩
  simp only [List.cons_append, List.cons.injEq] at ht
  exact h ht.2.1

theorem hasKey_false_none (items : List (String × H5)) (k : String)
    (h : hasKey items k = false) : getKey? items k = none := by
  rw [hasKey] at h
  cases hx : getKey? items k with
  | none => rfl
  | some v => rw [hx] at h; simp at h

/-- The camera-group creation step keeps the dataset-only shape of the
image group's children. -/
theorem ensure_imgds (f f1 : H5) (h : ensure_camera_group f = .ok f1)
    (himg0 : ∀ gi, getSub ["observation", "camera", "image"] f = some (.grp gi) →
      ∀ k v, getKey? gi k = some v → ∃ ts rows, v = H5.dset ts rows) :
    ∀ gi, getSub ["observation", "camera", "image"] f1 = some (.grp gi) →
      ∀ k v, getKey? gi k = some v → ∃ ts rows, v = H5.dset ts rows := by
  obtain ⟨obs, ho, hf1⟩ := ensure_camera_group_ok f f1 h
  intro gi hgi
  subst hf1
  have h1 := getSub_setSub_append (.grp (if hasKey obs "camera" then obs
    else obs ++ [("camera", .grp [("image", .grp [])])])) ["observation"]
    ["camera", "image"] f _ ho
  simp only [List.cons_append, List.nil_append] at h1
  rw [h1] at hgi
  by_cases hcam : hasKey obs "camera"
  · rw [if_pos hcam] at hgi
    have h2 := getSub_append ["observation"] ["camera", "image"] f
    rw [ho] at h2
    dsimp only at h2
    simp only [List.cons_append, List.nil_append] at h2
    refine himg0 gi ?_
    rw [h2]
    exact hgi
  · rw [if_neg hcam] at hgi
    have hnone : getKey? obs "camera" = none :=
      hasKey_false_none obs "camera" (by simpa using hcam)
    have hk : getKey? (obs ++ [("camera", H5.grp [("image", H5.grp [])])]) "camera" =
        some (H5.grp [("image", H5.grp [])]) := by
      rw [getKey?_append, hnone]
      rfl
    have hk3 : getKey? [("image", H5.grp [])] "image" = some (H5.grp []) := rfl
    simp only [getSub, hk, hk3, Option.some.injEq, H5.grp.injEq] at hgi
    subst hgi
    intro k v hkv
    exact absurd hkv (by simp [getKey?])

/-- A successful group lookup returns the value of a listed child. -/
theorem getKey?_mem (items : List (String × H5)) (k : String) (v : H5)
    (h : getKey? items k = some v) : ∃ p ∈ items, p.2 = v := by
  rw [getKey?] at h
  cases hf : items.find? (fun p => p.1 == k) with
  | none => rw [hf] at h; exact absurd h (by simp)
  | some p =>
    rw [hf] at h
    injection h with h
    exact ⟨p, List.mem_of_find?_eq_some hf, h⟩

/-- Rank normalization keeps the number of rows of a dataset. -/
theorem normVal_dset_length (ts : List Nat) (rows : List NDArr) :
    ∃ ts2 rows2, normVal (.dset ts rows) = .dset ts2 rows2 ∧ rows2.length = rows.length := by
  cases ts with
  | nil => exact ⟨[1], rows.map (fun r => .arr [r]), rfl, by simp⟩
  | cons c rest => exact ⟨c :: rest, rows, rfl, rfl⟩

/-- The action rewrite keeps the leading dimension of every direct
action child of leading dimension `T`, provided the two raw family
arrays have `T` rows themselves. -/
theorem write_actions_dims (ext : Ext) (acItems i1 i2 : List (String × H5))
    (h1 : family_write ext "cartesian_position" "abs_" acItems = .ok i1)
    (h2 : family_write ext "cartesian_velocity" "rel_" i1 = .ok i2) (T : Nat)
    (hcp : ∀ ts rows, getKey? acItems "cartesian_position" = some (.dset ts rows) →
      rows.length = T)
    (hcv : ∀ ts rows, getKey? acItems "cartesian_velocity" = some (.dset ts rows) →
      rows.length = T) :
    ∀ k ts rows, getKey? acItems k = some (.dset ts rows) → rows.length = T →
      ∃ ts2 rows2, getKey? i2 k = some (.dset ts2 rows2) ∧ rows2.length = T := by
  obtain ⟨c1, rest1, rows1, hk1, hi1⟩ := family_write_ok ext _ _ acItems i1 h1
  obtain ⟨c2, rest2, rows2, hk2, hi2⟩ := family_write_ok ext _ _ i1 i2 h2
  have hvel : getKey? acItems "cartesian_velocity" = some (.dset (c2 :: rest2) rows2) := by
    rw [hi1] at hk2
    simpa [getKey?_putKey] using hk2
  have hL1 : rows1.length = T := hcp _ _ hk1
  have hL2 : rows2.length = T := hcv _ _ hvel
  intro k ts rows hk hlen
  by_cases e1 : k = "abs_pos"
  · subst e1
    refine ⟨min 3 c1 :: rest1, rows1.map row_take3, ?_, by simp [hL1]⟩
    rw [hi2, hi1]
    simp [getKey?_putKey]
  by_cases e2 : k = "abs_rot_euler"
  · subst e2
    refine ⟨(min 6 c1 - min 3 c1) :: rest1, rows1.map row_slice36, ?_, by simp [hL1]⟩
    rw [hi2, hi1]
    simp [getKey?_putKey]
  by_cases e3 : k = "abs_rot_6d"
  · subst e3
    refine ⟨[6], (rows1.map row_slice36).map (rot6_of ext), ?_, by simp [hL1]⟩
    rw [hi2, hi1]
    simp [getKey?_putKey]
  by_cases e4 : k = "rel_pos"
  · subst e4
    refine ⟨min 3 c2 :: rest2, rows2.map row_take3, ?_, by simp [hL2]⟩
    rw [hi2, hi1]
    simp [getKey?_putKey]
  by_cases e5 : k = "rel_rot_euler"
  · subst e5
    refine ⟨(min 6 c2 - min 3 c2) :: rest2, rows2.map row_slice36, ?_, by simp [hL2]⟩
    rw [hi2, hi1]
    simp [getKey?_putKey]
  by_cases e6 : k = "rel_rot_6d"
  · subst e6
    refine ⟨[6], (rows2.map row_slice36).map (rot6_of ext), ?_, by simp [hL2]⟩
    rw [hi2, hi1]
    simp [getKey?_putKey]
  have nb : ∀ s : String, k ≠ s → (s == k) = false := by
    intro s hne
    cases hb : (s == k)
    · rfl
    · exact absurd (beq_iff_eq.mp hb).symm hne
  refine ⟨ts, rows, ?_, hlen⟩
  rw [hi2, hi1]
  have s1 : ("abs_" ++ "pos" : String) = "abs_pos" := rfl
  have s2 : ("abs_" ++ "rot_euler" : String) = "abs_rot_euler" := rfl
  have s3 : ("abs_" ++ "rot_6d" : String) = "abs_rot_6d" := rfl
  have s4 : ("rel_" ++ "pos" : String) = "rel_pos" := rfl
  have s5 : ("rel_" ++ "rot_euler" : String) = "rel_rot_euler" := rfl
  have s6 : ("rel_" ++ "rot_6d" : String) = "rel_rot_6d" := rfl
  simp only [getKey?_putKey, s1, s2, s3, s4, s5, s6, nb _ e1, nb _ e2, nb _ e3, nb _ e4,
    nb _ e5, nb _ e6, Bool.false_eq_true, if_false]
  exact hk

/-- C3: with `keep_idle_timesteps` set the conversion keeps every
per-timestep array (leading dimension equal to the episode length) at
the episode length, and without it every array of the augmented store
whose leading dimension equals the episode length loses exactly the
movement-disabled timesteps, which number exactly the entries of the
movement-enabled flag equal to `False`; all other arrays keep their
leading dimension. -/
theorem C3_episode_length (ext : Ext) (n : Nat) (f0 outK outP : H5)
    (tsc : List Nat) (crows : List NDArr) (tsv : List Nat) (vrows : List NDArr)
    (tsm : List Nat) (mrows : List NDArr)
    (hokK : convert_dataset ext ⟨n, true⟩ f0 = .ok outK)
    (hokP : convert_dataset ext ⟨n, false⟩ f0 = .ok outP)
    (hcp : getSub ["action", "cartesian_position"] f0 = some (.dset tsc crows))
    (hcv : getSub ["action", "cartesian_velocity"] f0 = some (.dset tsv vrows))
    (hlv : vrows.length = crows.length)
    (hmv : getSub ["observation", "controller_info", "movement_enabled"] f0 =
      some (.dset tsm mrows))
    (hml : mrows.length = crows.length)
    (himg0 : ∀ gi, getSub ["observation", "camera", "image"] f0 = some (.grp gi) →
      ∀ k v, getKey? gi k = some v → ∃ ts rows, v = H5.dset ts rows)
    (hact0 : ∀ ai, getSub ["action"] f0 = some (.grp ai) →
      ∀ k v, getKey? ai k = some v → ∃ ts rows, v = H5.dset ts rows) :
    (∀ q ts rows, getSub q f0 = some (.dset ts rows) → rows.length = crows.length →
      ∃ ts2 rows2, getSub q outK = some (.dset ts2 rows2) ∧ rows2.length = crows.length) ∧
    (∀ q ts rows, getSub q outK = some (.dset ts rows) →
      ∃ ts2 rows2, getSub q outP = some (.dset ts2 rows2) ∧
        rows2.length = if rows.length = crows.length
          then crows.length - (false_idxs mrows).length else rows.length) ∧
    (false_idxs mrows).length = mrows.countP (fun r => match r with
      | .scalar q => q == 0
      | .arr _ => false) := by
  obtain ⟨demoRows, f1, camItems, res, f2, f3, f4, mr4, h0, h1, h2, h3, h4, h5, h6, h7,
    h8, h9, hlastK⟩ := convert_ok_elim ext ⟨n, true⟩ f0 outK hokK
  have hout : outK = f4 := by
    rcases hlastK with ⟨-, h⟩ | ⟨hbad, -⟩
    · exact h
    · exact absurd hbad (by simp)
  have h0' := h0
  rw [read_shape0, hcp] at h0'
  injection h0' with hdemo
  have hdlen : demoRows.length = crows.length := by rw [hdemo]
  obtain ⟨acItems, i1, i2, hacf2, hfam1, hfam2, hf3⟩ := write_actions_ok ext f2 f3 h7
  have hacf0 : getSub ["action"] f0 = some (.grp acItems) := by
    rw [← stages12_action ext ⟨n, true⟩ res.1 res.2 demoRows.length f0 f1 f2 h1 h6]
    exact hacf2
  have hk1' : getKey? acItems "cartesian_position" = some (.dset tsc crows) := by
    have hs := getSub_snoc ["action"] "cartesian_position" f0 acItems hacf0
    simp only [List.cons_append, List.nil_append] at hs
    rw [← hs]
    exact hcp
  have hk2' : getKey? acItems "cartesian_velocity" = some (.dset tsv vrows) := by
    have hs := getSub_snoc ["action"] "cartesian_velocity" f0 acItems hacf0
    simp only [List.cons_append, List.nil_append] at hs
    rw [← hs]
    exact hcv
  have hacf3 : getSub ["action"] f3 = some (.grp i2) := by
    rw [hf3]
    exact getSub_setSub_self _ ["action"] f2 _ hacf2
  obtain ⟨acItems3, hac3, hf4⟩ := normalize_actions_ok f3 f4 h8
  rw [hacf3] at hac3
  injection hac3 with hac3
  injection hac3 with hac3
  subst hac3
  have hf4look : ∀ k, getSub ["action", k] f4 = (getKey? i2 k).map normVal :=
    fun k => normalize_actions_lookup f3 f4 i2 hacf3 h8 k
  have hcpT : ∀ ts' rows', getKey? acItems "cartesian_position" = some (.dset ts' rows') →
      rows'.length = crows.length := by
    intro ts' rows' hx
    rw [hk1'] at hx
    injection hx with hx
    injection hx with hx1 hx2
    rw [← hx2]
  have hcvT : ∀ ts' rows', getKey? acItems "cartesian_velocity" = some (.dset ts' rows') →
      rows'.length = crows.length := by
    intro ts' rows' hx
    rw [hk2'] at hx
    injection hx with hx
    injection hx with hx1 hx2
    rw [← hx2]
    exact hlv
  obtain ⟨c1, rest1, rows1, c2, rest2, rows2x, hk1L, hk2L, hq1, hq2, ha1, ha2, ha3, hr1,
    hr2, hr3, hprov⟩ := write_actions_lookups ext acItems i1 i2 hfam1 hfam2
  have hrows1 : rows1 = crows := by
    rw [hk1'] at hk1L
    injection hk1L with hx
    injection hx with hx1 hx2
    exact hx2.symm
  have hcp4 : getSub ["action", "cartesian_position"] f4 = some (.dset (c1 :: rest1) rows1) := by
    rw [hf4look, hq1]
    rfl
  have hmv1 : getSub ["observation", "controller_info", "movement_enabled"] f1 =
      some (.dset tsm mrows) :=
    ensure_preserves_dsets f0 f1 h1 _ tsm mrows hmv
  obtain ⟨imgItems, outImg, hoImg, hfold, hf2⟩ :=
    write_images_ok ext ⟨n, true⟩ res.1 res.2 demoRows.length f1 f2 h6
  have hmv2 : getSub ["observation", "controller_info", "movement_enabled"] f2 =
      some (.dset tsm mrows) := by
    rw [hf2, getSub_setSub_disjoint _ _ _ _
      (not_prefix_of_ne_tail _ _ _ _ _ (by decide))
      (not_prefix_of_ne_tail _ _ _ _ _ (by decide))]
    exact hmv1
  have hmv3 : getSub ["observation", "controller_info", "movement_enabled"] f3 =
      some (.dset tsm mrows) := by
    rw [hf3, getSub_setSub_disjoint _ _ _ _
      (not_prefix_of_ne_head _ _ _ _ (by decide))
      (not_prefix_of_ne_head _ _ _ _ (by decide))]
    exact hmv2
  have hmv4 : getSub ["observation", "controller_info", "movement_enabled"] f4 =
      some (.dset tsm mrows) := by
    rw [hf4, getSub_setSub_disjoint _ _ _ _
      (not_prefix_of_ne_head _ _ _ _ (by decide))
      (not_prefix_of_ne_head _ _ _ _ (by decide))]
    exact hmv3
  have h9' := h9
  rw [read_shape0, hmv4] at h9'
  injection h9' with hmr
  obtain ⟨demoP, f1P, camItemsP, resP, f2P, f3P, f4P, mrP, g0, g1, g2, g3, g4, g5, g6, g7,
    g8, g9, hlastP⟩ := convert_ok_elim ext ⟨n, false⟩ f0 outP hokP
  rw [h1] at g1
  injection g1 with g1e
  subst g1e
  rw [h0] at g0
  injection g0 with g0e
  subst g0e
  rw [h3] at g3
  injection g3 with g3e
  subst g3e
  rw [h4] at g4
  injection g4 with g4e
  subst g4e
  have hWI : write_images ext (⟨n, false⟩ : Args) res.1 res.2 demoRows.length f1 =
      write_images ext (⟨n, true⟩ : Args) res.1 res.2 demoRows.length f1 := rfl
  rw [hWI, h6] at g6
  injection g6 with g6e
  subst g6e
  rw [h7] at g7
  injection g7 with g7e
  subst g7e
  rw [h8] at g8
  injection g8 with g8e
  subst g8e
  rw [h9] at g9
  injection g9 with g9e
  subst g9e
  have hPr : ∃ ns, remove_timesteps f4 (false_idxs mr4) = .ok (outP, ns) := by
    rcases hlastP with ⟨hbad, -⟩ | ⟨-, ns, hrt⟩
    · exact absurd hbad (by simp)
    · exact ⟨ns, hrt⟩
  obtain ⟨ns, hrt⟩ := hPr
  rw [← hmr] at hrt
  obtain ⟨trows, items4, items', hT4, hfg, hog, hpr⟩ :=
    remove_timesteps_ok_elim f4 (false_idxs mrows) outP ns hrt
  have hcp4' := hcp4
  rw [hfg] at hcp4'
  rw [read_shape0, hfg, hcp4'] at hT4
  injection hT4 with hT4e
  have htrlen : trows.length = crows.length := by rw [← hT4e, hrows1]
  refine ⟨?_, ?_, false_idxs_countP mrows⟩
  · intro q ts rows hq hlen
    rw [hout]
    have hq1a := ensure_preserves_dsets f0 f1 h1 q ts rows hq
    have himg1 := ensure_imgds f0 f1 h1 himg0
    obtain ⟨ts2, rows2, hq2a, hlen2⟩ := write_images_dimT ext ⟨n, true⟩ res.1 res.2
      demoRows.length f1 f2 h6 himg1 q ts rows hq1a (by rw [hdlen]; exact hlen)
    by_cases hpre : ["action"] <+: q
    · obtain ⟨r, hr⟩ := hpre
      subst hr
      have h2q := getSub_append ["action"] r f2
      rw [hacf2] at h2q
      dsimp only at h2q
      cases r with
      | nil =>
        rw [h2q] at hq2a
        simp [getSub] at hq2a
      | cons k r2 =>
        rw [h2q] at hq2a
        simp only [getSub] at hq2a
        cases hk : getKey? acItems k with
        | none => rw [hk] at hq2a; exact absurd hq2a (by simp)
        | some c =>
          rw [hk] at hq2a
          obtain ⟨tsc0, rowsc0, rfl⟩ := hact0 acItems hacf0 k c hk
          cases r2 with
          | cons b r3 => simp [getSub] at hq2a
          | nil =>
            simp only [getSub, Option.some.injEq, H5.dset.injEq] at hq2a
            obtain ⟨he1, he2⟩ := hq2a
            obtain ⟨ts3, rows3, hi2k, hlen3⟩ := write_actions_dims ext acItems i1 i2
              hfam1 hfam2 crows.length hcpT hcvT k tsc0 rowsc0 hk
              (by rw [he2, hlen2, hdlen])
            obtain ⟨ts4, rows4, hnv, hlen4⟩ := normVal_dset_length ts3 rows3
            refine ⟨ts4, rows4, ?_, by rw [hlen4]; exact hlen3⟩
            have hlk := hf4look k
            simp only [List.cons_append, List.nil_append]
            rw [hlk, hi2k]
            simp only [Option.map]
            rw [hnv]
    · have h3q : getSub q f3 = getSub q f2 := by
        rw [hf3]
        exact getSub_setSub_of_dset _ ["action"] q f2 _ hacf2 hpre ts2 rows2 hq2a
      have h4q : getSub q f4 = getSub q f3 := by
        rw [hf4]
        exact getSub_setSub_of_dset _ ["action"] q f3 _ hacf3 hpre ts2 rows2
          (by rw [h3q]; exact hq2a)
      exact ⟨ts2, rows2, by rw [h4q, h3q]; exact hq2a, by rw [hlen2, hdlen]⟩
  · intro q ts rows hq
    rw [hout, hfg] at hq
    have hp := prune_root_fwd trows.length (false_idxs mrows) items4 items' ns hpr
      q ts rows hq
    refine ⟨ts, pruneIf trows.length (false_idxs mrows) rows, by rw [hog]; exact hp, ?_⟩
    by_cases hT : rows.length = crows.length
    · have hb : ∀ i ∈ false_idxs mrows, i < rows.length := by
        intro i hi
        have h1b := false_idxs_lt mrows i hi
        omega
      rw [pruneIf, htrlen, if_pos hT, if_pos hT,
        pruned_rows_length rows (false_idxs mrows) (false_idxs_nodup mrows) hb, hT]
    · rw [pruneIf, htrlen, if_neg hT, if_neg hT]

/-- Witness for C3 on the concrete trajectory `store0`, whose second
timestep is idle: both the keeping and the pruning conversion succeed
and the episode lengths behave as claimed. -/
theorem C3_episode_length_witness :
    (∀ q ts rows, getSub q store0 = some (.dset ts rows) →
      rows.length = [row6 1, row6 10].length →
      ∃ ts2 rows2, getSub q outKeep = some (.dset ts2 rows2) ∧
        rows2.length = [row6 1, row6 10].length) ∧
    (∀ q ts rows, getSub q outKeep = some (.dset ts rows) →
      ∃ ts2 rows2, getSub q outPrune = some (.dset ts2 rows2) ∧
        rows2.length = if rows.length = [row6 1, row6 10].length
          then [row6 1, row6 10].length -
            (false_idxs [NDArr.scalar 1, NDArr.scalar 0]).length
          else rows.length) ∧
    (false_idxs [NDArr.scalar 1, NDArr.scalar 0]).length =
      [NDArr.scalar 1, NDArr.scalar 0].countP (fun r => match r with
        | .scalar q => q == 0
        | .arr _ => false) :=
  C3_episode_length ext0 1 store0 outKeep outPrune [6] [row6 1, row6 10] [6]
    [row6 20, row6 30] [] [NDArr.scalar 1, NDArr.scalar 0]
    rfl rfl rfl rfl rfl rfl rfl
    (by
      intro gi hgi
      rw [show getSub ["observation", "camera", "image"] store0 = none from rfl] at hgi
      exact Option.noConfusion hgi)
    (by
      intro ai hai k v hk
      rw [show getSub ["action"] store0 = some (H5.grp
        [("cartesian_position", H5.dset [6] [row6 1, row6 10]),
         ("cartesian_velocity", H5.dset [6] [row6 20, row6 30])]) from rfl] at hai
      injection hai with hai
      injection hai with hai
      subst hai
      obtain ⟨p, hp, rfl⟩ := getKey?_mem _ _ _ hk
      simp only [List.mem_cons, List.not_mem_nil, or_false] at hp
      rcases hp with rfl | rfl
      · exact ⟨[6], [row6 1, row6 10], rfl⟩
      · exact ⟨[6], [row6 20, row6 30], rfl⟩)

/-- Reversing the channels of an all-zero frame is the same all-zero
frame. -/
theorem bgr_zeroFrame (n : Nat) : bgr_to_rgb (zeroFrame n) = zeroFrame n := by
  simp [bgr_to_rgb, zeroFrame, List.map_replicate, List.reverse_replicate]

theorem zeroFrame_shape (n : Nat) : frameHasShape (zeroFrame n) n n 3 = true := by
  simp [frameHasShape, zeroFrame, List.all_eq_true, List.mem_replicate]

theorem frameHasShape_bgr (fr : Frame) (h w c : Nat) :
    frameHasShape (bgr_to_rgb fr) h w c = frameHasShape fr h w c := by
  simp only [frameHasShape, bgr_to_rgb, List.length_map, List.all_map]
  have he : ((fun r : List (List ℚ) => r.length == w && r.all fun px => px.length == c) ∘
      fun row : List (List ℚ) => List.map List.reverse row) =
      fun r : List (List ℚ) => r.length == w && r.all fun px => px.length == c := by
    funext row
    simp only [Function.comp, List.length_map, List.all_map]
    have he2 : ((fun px : List ℚ => px.length == c) ∘ List.reverse) =
        fun px : List ℚ => px.length == c := by
      funext px
      simp [Function.comp, List.length_reverse]
    rw [he2]
  rw [he]

/-- Stacking a list of frames that all share the shape `n × n × 3`
always succeeds and keeps every frame as one row (after the uint8
cast). -/
theorem stackFrames_conform (n : Nat) (hn : 0 < n) :
    ∀ l : List Frame, (∀ fr ∈ l, frameHasShape fr n n 3 = true) →
      stackFrames l = .ok (.dset (if l.isEmpty then [] else [n, n, 3])
        (l.map (fun fr => frameToND (mapFrame uint8cast fr))))
  | [], _ => rfl
  | f0 :: rest, h => by
    have hf0 : frameHasShape f0 n n 3 = true := h f0 (List.mem_cons_self _ _)
    rw [frameHasShape, Bool.and_eq_true] at hf0
    obtain ⟨hlen, hall⟩ := hf0
    have hh : f0.length = n := by simpa using hlen
    rw [List.all_eq_true] at hall
    obtain ⟨r, rs, hf0e⟩ : ∃ r rs, f0 = r :: rs := by
      cases hf0c : f0 with
      | nil => rw [hf0c] at hh; simp at hh; omega
      | cons r rs => exact ⟨r, rs, rfl⟩
    have hr := hall r (by rw [hf0e]; exact List.mem_cons_self _ _)
    rw [Bool.and_eq_true] at hr
    obtain ⟨hrw, hrall⟩ := hr
    have hw : r.length = n := by simpa using hrw
    rw [List.all_eq_true] at hrall
    obtain ⟨px, pxs, hre⟩ : ∃ px pxs, r = px :: pxs := by
      cases hrc : r with
      | nil => rw [hrc] at hw; simp at hw; omega
      | cons px pxs => exact ⟨px, pxs, rfl⟩
    have hpx := hrall px (by rw [hre]; exact List.mem_cons_self _ _)
    have hc : px.length = 3 := by simpa using hpx
    have hhd : (f0.headD []) = r := by rw [hf0e]; rfl
    have hhd2 : r.headD [] = px := by rw [hre]; rfl
    simp only [List.isEmpty_cons, Bool.false_eq_true, if_false]
    rw [stackFrames]
    split_ifs with hcc
    · rw [hh, hhd, hw, hhd2, hc]
    · exfalso
      refine hcc ?_
      rw [hh, hhd, hw, hhd2, hc, List.all_eq_true]
      intro fr hm
      exact h fr hm

/-- The image-accumulation fold never fails when every successful
camera read returns frames of the target resolution: failed reads are
padded with zero frames of exactly that shape. -/
theorem images_fold_total (ext : Ext) (args : Args) (ctd : List (String × String))
    (dlen : Nat) (hn : 0 < args.imsize) :
    ∀ (mapping : List (String × String)) (acc : List (String × H5)),
      (∀ nk ∈ mapping, ∀ i imgs, ext.read_cameras i ctd [] = some imgs →
        frameHasShape (imgs nk.2) args.imsize args.imsize 3 = true) →
      ∃ out, (mapping.foldlM (fun acc (nk : String × String) => do
          let d ← stackFrames (cam_frames ext args ctd dlen nk.2)
          Except.ok (putKey acc nk.1 d)) acc) = .ok out
  | [], acc, _ => ⟨acc, rfl⟩
  | nk :: rest, acc, h => by
    have hshape : ∀ fr ∈ cam_frames ext args ctd dlen nk.2,
        frameHasShape fr args.imsize args.imsize 3 = true := by
      intro fr hm
      rw [cam_frames, List.mem_map] at hm
      obtain ⟨i, hi, rfl⟩ := hm
      cases hrc : ext.read_cameras i ctd [] with
      | none =>
        simp only [frame_for, hrc]
        rw [frameHasShape_bgr]
        exact zeroFrame_shape args.imsize
      | some imgs =>
        simp only [frame_for, hrc]
        rw [frameHasShape_bgr]
        exact h nk (List.mem_cons_self _ _) i imgs hrc
    have hst := stackFrames_conform args.imsize hn (cam_frames ext args ctd dlen nk.2) hshape
    obtain ⟨out, hout⟩ := images_fold_total ext args ctd dlen hn rest
      (putKey acc nk.1 (.dset (if (cam_frames ext args ctd dlen nk.2).isEmpty then []
        else [args.imsize, args.imsize, 3])
        ((cam_frames ext args ctd dlen nk.2).map (fun fr => frameToND (mapFrame uint8cast fr)))))
      (fun nk2 hm => h nk2 (List.mem_cons_of_mem _ hm))
    refine ⟨out, ?_⟩
    rw [List.foldlM_cons]
    simp only [bind, Except.bind]
    rw [hst]
    dsimp only
    exact hout

/-- C4: at every timestep and for every logical camera slot, the frame
accumulated for the slot is the captured frame with reversed channel
order when the camera read succeeded, and the channel-reversed all-zero
square frame of the target resolution (still all zero, of shape
`imsize × imsize × 3`) when the read failed; a failed read never aborts
the conversion: stacking the accumulated frames, and the whole image
writing stage, succeed regardless of which reads failed, as long as the
successful reads deliver frames of the target resolution, and each
output row is exactly the uint8 cast of the accumulated frame. -/
theorem C4_zero_frame_substitution (ext : Ext) (args : Args)
    (ctd : List (String × String)) (key : String) :
    (∀ i imgs, ext.read_cameras i ctd [] = some imgs →
      frame_for ext args ctd i key = bgr_to_rgb (imgs key)) ∧
    (∀ i, ext.read_cameras i ctd [] = none →
      frame_for ext args ctd i key = zeroFrame args.imsize ∧
      frameHasShape (zeroFrame args.imsize) args.imsize args.imsize 3 = true) ∧
    (∀ dlen, 0 < args.imsize →
      (∀ i imgs, ext.read_cameras i ctd [] = some imgs →
        frameHasShape (imgs key) args.imsize args.imsize 3 = true) →
      stackFrames (cam_frames ext args ctd dlen key) =
        .ok (.dset (if dlen = 0 then [] else [args.imsize, args.imsize, 3])
          ((List.range dlen).map (fun i =>
            frameToND (mapFrame uint8cast (frame_for ext args ctd i key)))))) ∧
    (∀ (mapping : List (String × String)) (dlen : Nat) (f1 : H5)
      (gi : List (String × H5)),
      getSub ["observation", "camera", "image"] f1 = some (.grp gi) →
      0 < args.imsize →
      (∀ nk ∈ mapping, ∀ i imgs, ext.read_cameras i ctd [] = some imgs →
        frameHasShape (imgs nk.2) args.imsize args.imsize 3 = true) →
      ∃ f2, write_images ext args ctd mapping dlen f1 = .ok f2) := by
  refine ⟨?_, ?_, ?_, ?_⟩
  · intro i imgs hrc
    simp only [frame_for, hrc]
  · intro i hrc
    refine ⟨?_, zeroFrame_shape args.imsize⟩
    simp only [frame_for, hrc]
    exact bgr_zeroFrame args.imsize
  · intro dlen hn hsh
    have hshape : ∀ fr ∈ cam_frames ext args ctd dlen key,
        frameHasShape fr args.imsize args.imsize 3 = true := by
      intro fr hm
      rw [cam_frames, List.mem_map] at hm
      obtain ⟨i, hi, rfl⟩ := hm
      cases hrc : ext.read_cameras i ctd [] with
      | none =>
        simp only [frame_for, hrc]
        rw [frameHasShape_bgr]
        exact zeroFrame_shape args.imsize
      | some imgs =>
        simp only [frame_for, hrc]
        rw [frameHasShape_bgr]
        exact hsh i imgs hrc
    have hst := stackFrames_conform args.imsize hn (cam_frames ext args ctd dlen key) hshape
    rw [hst]
    have hempty : (cam_frames ext args ctd dlen key).isEmpty = decide (dlen = 0) := by
      rw [cam_frames]
      cases dlen with
      | zero => rfl
      | succ d => simp [List.range_succ]
    rw [hempty, cam_frames]
    cases hd : decide (dlen = 0) with
    | true =>
      have : dlen = 0 := by simpa using hd
      subst this
      rfl
    | false =>
      have hne : ¬ dlen = 0 := by simpa using hd
      rw [if_neg hne, List.map_map]
      rfl
  · intro mapping dlen f1 gi hgi hn hsh
    obtain ⟨out, hout⟩ := images_fold_total ext args ctd dlen hn mapping gi hsh
    refine ⟨setSub (.grp out) ["observation", "camera", "image"] f1, ?_⟩
    rw [write_images, modSub_ok_iff]
    refine ⟨.grp gi, .grp out, hgi, ?_, rfl⟩
    dsimp only
    rw [hout]
    rfl

/-- Witness for C4 at the concrete collaborators `ext0` (whose camera
reads always succeed with a constant 1x1 frame) and resolution 1. -/
theorem C4_zero_frame_substitution_witness :
    (∀ i imgs, ext0.read_cameras i [("11", "hand_camera"), ("22", "varied_camera")] [] =
        some imgs →
      frame_for ext0 argsKeep [("11", "hand_camera"), ("22", "varied_camera")] i "11_left" =
        bgr_to_rgb (imgs "11_left")) ∧
    (∀ i, ext0.read_cameras i [("11", "hand_camera"), ("22", "varied_camera")] [] = none →
      frame_for ext0 argsKeep [("11", "hand_camera"), ("22", "varied_camera")] i "11_left" =
        zeroFrame argsKeep.imsize ∧
      frameHasShape (zeroFrame argsKeep.imsize) argsKeep.imsize argsKeep.imsize 3 = true) ∧
    (∀ dlen, 0 < argsKeep.imsize →
      (∀ i imgs, ext0.read_cameras i [("11", "hand_camera"), ("22", "varied_camera")] [] =
          some imgs →
        frameHasShape (imgs "11_left") argsKeep.imsize argsKeep.imsize 3 = true) →
      stackFrames (cam_frames ext0 argsKeep [("11", "hand_camera"), ("22", "varied_camera")]
          dlen "11_left") =
        .ok (.dset (if dlen = 0 then [] else [argsKeep.imsize, argsKeep.imsize, 3])
          ((List.range dlen).map (fun i =>
            frameToND (mapFrame uint8cast (frame_for ext0 argsKeep
              [("11", "hand_camera"), ("22", "varied_camera")] i "11_left")))))) ∧
    (∀ (mapping : List (String × String)) (dlen : Nat) (f1 : H5)
      (gi : List (String × H5)),
      getSub ["observation", "camera", "image"] f1 = some (.grp gi) →
      0 < argsKeep.imsize →
      (∀ nk ∈ mapping, ∀ i imgs,
        ext0.read_cameras i [("11", "hand_camera"), ("22", "varied_camera")] [] = some imgs →
        frameHasShape (imgs nk.2) argsKeep.imsize argsKeep.imsize 3 = true) →
      ∃ f2, write_images ext0 argsKeep [("11", "hand_camera"), ("22", "varied_camera")]
        mapping dlen f1 = .ok f2) :=
  C4_zero_frame_substitution ext0 argsKeep [("11", "hand_camera"), ("22", "varied_camera")]
    "11_left"

/-- C8: the conversion consults the camera reader only with the empty
timestamp map and consults the per-timestep trajectory record only for
its presence: two collaborator environments that agree on the camera
classification table, on the rotation conversions, on which timestep
records exist (their recorded timestamp values may differ arbitrarily)
and on the camera reads under the empty timestamp map (reads under any
non-empty map may differ arbitrarily) produce bit-identical
conversions, so the recorded per-timestep camera timestamp values have
no effect on any output. -/
theorem C8_timestamp_noninterference (ext ext2 : Ext) (args : Args) (f0 : H5)
    (hct : ext.camera_type_to_string = ext2.camera_type_to_string)
    (hts : ∀ i, (ext.read_timestep i).isSome = (ext2.read_timestep i).isSome)
    (hrc : ∀ i ctd, ext.read_cameras i ctd [] = ext2.read_cameras i ctd [])
    (heu : ext.euler_angles_to_matrix = ext2.euler_angles_to_matrix)
    (hm6 : ext.matrix_to_rotation_6d = ext2.matrix_to_rotation_6d) :
    convert_dataset ext args f0 = convert_dataset ext2 args f0 := by
  have hcheck : check_ts_reads ext = check_ts_reads ext2 := by
    funext dlen
    rw [check_ts_reads, check_ts_reads]
    have he : (fun i => (ext.read_timestep i).isSome) =
        (fun i => (ext2.read_timestep i).isSome) := funext hts
    rw [he]
  have hff : ∀ a ctd i k, frame_for ext a ctd i k = frame_for ext2 a ctd i k := by
    intro a ctd i k
    rw [frame_for, frame_for, hrc]
  have hcf : ∀ ctd dlen k, cam_frames ext args ctd dlen k = cam_frames ext2 args ctd dlen k := by
    intro ctd dlen k
    rw [cam_frames, cam_frames]
    congr 1
    funext i
    exact hff args ctd i k
  have hwi : ∀ ctd mapping dlen f, write_images ext args ctd mapping dlen f =
      write_images ext2 args ctd mapping dlen f := by
    intro ctd mapping dlen f
    rw [write_images, write_images]
    congr 1
    funext hh
    cases hh with
    | dset ts rows => rfl
    | grp items =>
      dsimp only
      have hfn : (fun (acc : List (String × H5)) (nk : String × String) => do
          let d ← stackFrames (cam_frames ext args ctd dlen nk.2)
          Except.ok (putKey acc nk.1 d)) =
          (fun (acc : List (String × H5)) (nk : String × String) => do
          let d ← stackFrames (cam_frames ext2 args ctd dlen nk.2)
          Except.ok (putKey acc nk.1 d)) := by
        funext acc nk
        rw [hcf]
      rw [hfn]
  have hrot : rot6_of ext = rot6_of ext2 := by
    funext r
    rw [rot6_of, rot6_of, heu, hm6]
  have hfw : ∀ fam pfx items, family_write ext fam pfx items = family_write ext2 fam pfx items := by
    intro fam pfx items
    rw [family_write, family_write, hrot]
  have hwa : write_actions ext = write_actions ext2 := by
    funext f
    rw [write_actions, write_actions]
    congr 1
    funext hh
    cases hh with
    | dset ts rows => rfl
    | grp items =>
      dsimp only
      simp only [hfw]
  simp only [convert_dataset, hct, hcheck, hwa, hwi]

/-- Witness for C8: the collaborators `ext1` record different
timestamp values and refuse reads under non-empty timestamp maps, yet
the conversion of `store0` is identical to the one under `ext0`. -/
theorem C8_timestamp_noninterference_witness :
    ext1.camera_type_to_string = ext0.camera_type_to_string ∧
    (∀ i, (ext1.read_timestep i).isSome = (ext0.read_timestep i).isSome) ∧
    (∀ i ctd, ext1.read_cameras i ctd [] = ext0.read_cameras i ctd []) ∧
    ext1.euler_angles_to_matrix = ext0.euler_angles_to_matrix ∧
    ext1.matrix_to_rotation_6d = ext0.matrix_to_rotation_6d ∧
    convert_dataset ext1 argsKeep store0 = convert_dataset ext0 argsKeep store0 :=
  ⟨rfl, fun _ => rfl, fun _ _ => rfl, rfl, rfl,
    C8_timestamp_noninterference ext1 ext0 argsKeep store0 rfl (fun _ => rfl)
      (fun _ _ => rfl) rfl rfl⟩

theorem fsRead_fsWrite_self (fs : FS) (p : String) (v : H5) :
    fsRead (fsWrite fs p v) p = some v := by
  rw [fsWrite]
  split_ifs with hf
  · show getKey? (replaceKey fs p v) p = some v
    cases hx : getKey? fs p with
    | none =>
      exfalso
      rw [getKey?] at hx
      cases hfind : fs.find? (fun e => e.1 == p) with
      | none => rw [hfind] at hf; simp at hf
      | some c => rw [hfind] at hx; simp at hx
    | some c => exact getKey?_replaceKey_self fs p v c hx
  · show getKey? (fs ++ [(p, v)]) p = some v
    rw [getKey?_append]
    cases hx : getKey? fs p with
    | some c =>
      exfalso
      rw [getKey?] at hx
      cases hfind : fs.find? (fun e => e.1 == p) with
      | none => rw [hfind] at hx; simp at hx
      | some e => rw [hfind] at hf; simp at hf
    | none =>
      dsimp only
      simp [getKey?_cons]

theorem fsRead_fsWrite_ne (fs : FS) (p q : String) (v : H5) (h : q ≠ p) :
    fsRead (fsWrite fs p v) q = fsRead fs q := by
  rw [fsWrite]
  split_ifs with hf
  · show getKey? (replaceKey fs p v) q = getKey? fs q
    exact getKey?_replaceKey_ne fs p v q h
  · show getKey? (fs ++ [(p, v)]) q = getKey? fs q
    rw [getKey?_append]
    cases hx : getKey? fs q with
    | some c => rfl
    | none =>
      dsimp only
      rw [getKey?_cons, if_neg (by intro hb; exact h (beq_iff_eq.mp hb).symm)]
      rfl

/-- C7: a successful conversion of a trajectory file leaves the source
file unchanged and every other file except the resolution-tagged
output path untouched; the output file holds the conversion of the
source content, written over a copy of the source that is created at
the output path before the conversion pass runs, and the output path
(which differs from the source, as the copy refuses to copy a file
onto itself) encodes the target resolution in its name. -/
theorem C7_copy_then_mutate (ext : Ext) (args : Args) (fs fs' : FS) (path : String)
    (h : convert_file ext args fs path = .ok fs') :
    output_path path args.imsize ≠ path ∧
    fsRead fs' path = fsRead fs path ∧
    (∀ q, q ≠ output_path path args.imsize → fsRead fs' q = fsRead fs q) ∧
    (∃ src res, fsRead fs path = some src ∧
      convert_dataset ext args src = .ok res ∧
      fs' = fsWrite (fsWrite fs (output_path path args.imsize) src)
        (output_path path args.imsize) res ∧
      fsRead fs' (output_path path args.imsize) = some res) := by
  rw [convert_file] at h
  simp only [bind, Except.bind] at h
  cases hsrc : fsRead fs path with
  | none => rw [hsrc] at h; exact absurd h (by simp)
  | some src =>
    rw [hsrc] at h
    dsimp only at h
    split_ifs at h with hop
    have hops : output_path path args.imsize ≠ path := by
      intro he
      exact hop (by rw [he]; exact beq_self_eq_true path)
    cases hres : convert_dataset ext args src with
    | error e => rw [hres] at h; exact absurd h (by simp)
    | ok res =>
      rw [hres] at h
      dsimp only at h
      injection h with h1
      refine ⟨hops, ?_, ?_, src, res, rfl, hres, h1.symm, ?_⟩
      · rw [← h1, fsRead_fsWrite_ne _ _ _ _ (Ne.symm hops),
          fsRead_fsWrite_ne _ _ _ _ (Ne.symm hops)]
        exact hsrc
      · intro q hq
        rw [← h1, fsRead_fsWrite_ne _ _ _ _ hq, fsRead_fsWrite_ne _ _ _ _ hq]
      · rw [← h1, fsRead_fsWrite_self]

/-- Witness for C7 on the concrete one-file file system `fs0`. -/
theorem C7_copy_then_mutate_witness :
    output_path "/data/traj/trajectory.h5" argsKeep.imsize ≠ "/data/traj/trajectory.h5" ∧
    fsRead fsOut "/data/traj/trajectory.h5" = fsRead fs0 "/data/traj/trajectory.h5" ∧
    (∀ q, q ≠ output_path "/data/traj/trajectory.h5" argsKeep.imsize →
      fsRead fsOut q = fsRead fs0 q) ∧
    (∃ src res, fsRead fs0 "/data/traj/trajectory.h5" = some src ∧
      convert_dataset ext0 argsKeep src = .ok res ∧
      fsOut = fsWrite (fsWrite fs0 (output_path "/data/traj/trajectory.h5" argsKeep.imsize)
          src)
        (output_path "/data/traj/trajectory.h5" argsKeep.imsize) res ∧
      fsRead fsOut (output_path "/data/traj/trajectory.h5" argsKeep.imsize) = some res) :=
  C7_copy_then_mutate ext0 argsKeep fs0 fsOut "/data/traj/trajectory.h5" rfl

end R2D2
